import Mathlib

/-!
Shallow embedding of the cache controller of the `all-about-cache-video`
repository.  The pure data operations come from
`src/components/cache/CacheLogic.ts` and `src/utils/PacketUtils.ts`, the
replacement policy from the `Cache` component (`LRU_POLICY`), and the
request router from `src/components/cache/CacheRequestHandler.ts`.
JavaScript `bigint` line data is modelled as `Nat` (all values produced by
the code are non-negative), `number` indices and addresses as `Nat`, and
in-place mutation of a cache line as a functional update of the containing
state.  Downstream bus traffic and line installation are recorded as an
explicit event list so that ordering claims can be stated; the downstream
slave is an oracle function from request packets to response packets.
Animator calls and display strings are visualization-only and are omitted.
-/

namespace CacheModel

/-- One cache line, from `CacheLine` in the repository's `Cache` scheme:
`valid`, `dirty`, `tag`, 64-bit-at-most `data` (bigint, modelled as `Nat`)
and the LRU stamp `replaceState`. -/
structure CacheLine where
  valid : Bool
  dirty : Bool
  tag : Nat
  data : Nat
  replaceState : Nat
  deriving Repr, DecidableEq

/-- The line every slot holds at construction time (all lines start
invalid, clean and zero). -/
def initLine : CacheLine :=
  { valid := false, dirty := false, tag := 0, data := 0, replaceState := 0 }

/-- `getSizeInBytes` from `PacketUtils.ts`: `1 << size`. -/
def getSizeInBytes (size : Nat) : Nat := 1 <<< size

/-- `maskToSize` from `PacketUtils.ts`: keep the low `2^size` bytes. -/
def maskToSize (value : Nat) (size : Nat) : Nat :=
  value &&& ((1 <<< (getSizeInBytes size * 8)) - 1)

/-- `generateFullMask` from `PacketUtils.ts`: `(1 << byteCount) - 1`. -/
def generateFullMask (byteCount : Nat) : Nat := (1 <<< byteCount) - 1

/-- `applyWriteMask` from `PacketUtils.ts`.  The source loops `i` from `0`
to `lineSize - 1`; the recursion below peels the last iteration, so
`applyWriteMask o n m k` performs iterations `0 … k-1`.  For each selected
byte the source computes `result = (result & ~byteMask) | (newData &
byteMask)`; `a & ~b` on non-negative bigints is `Nat.ldiff`. -/
def applyWriteMask (oldData newData : Nat) (writeMask : Nat) : Nat → Nat
  | 0 => oldData
  | n + 1 =>
    let result := applyWriteMask oldData newData writeMask n
    if (writeMask >>> n) &&& 1 = 1 then
      let shift := n * 8
      let byteMask := 0xff <<< shift
      Nat.ldiff result byteMask ||| (newData &&& byteMask)
    else result

/-- `readByteFromLine` from `CacheLogic.ts`, on the line's `data` field:
`(data >> (offset*8)) & 0xff`. -/
def readByteFromLine (data : Nat) (offset : Nat) : Nat :=
  (data >>> (offset * 8)) &&& 0xff

/-- `writeByteToLine` from `CacheLogic.ts`, returning the new `data`:
`(data & ~(0xff << shift)) | ((value & 0xff) << shift)`. -/
def writeByteToLine (data : Nat) (offset : Nat) (value : Nat) : Nat :=
  let shift := offset * 8
  Nat.ldiff data (0xff <<< shift) ||| ((value &&& 0xff) <<< shift)

/-- `readBytesFromLine` from `CacheLogic.ts`: or together bytes
`offset … offset+byteCount-1`, little-endian.  The recursion peels the
last loop iteration. -/
def readBytesFromLine (data : Nat) (offset : Nat) : Nat → Nat
  | 0 => 0
  | n + 1 =>
    readBytesFromLine data offset n |||
      (readByteFromLine data (offset + n) <<< (n * 8))

/-- `writeBytesToLine` from `CacheLogic.ts`: write bytes
`offset … offset+byteCount-1` of `value`, little-endian.  The recursion
peels the last loop iteration. -/
def writeBytesToLine (data : Nat) (offset : Nat) (value : Nat) : Nat → Nat
  | 0 => data
  | n + 1 =>
    writeByteToLine (writeBytesToLine data offset value n) (offset + n)
      ((value >>> (n * 8)) &&& 0xff)

/-- Static cache geometry, the constructor arguments of `CacheLogic`. -/
structure CacheConfig where
  offsetBits : Nat
  setBits : Nat
  numWays : Nat
  deriving Repr, DecidableEq

/-- `numSets = setBits > 0 ? 1 << setBits : 1` from the constructor. -/
def CacheConfig.numSets (c : CacheConfig) : Nat :=
  if c.setBits > 0 then 1 <<< c.setBits else 1

/-- `lineSize = 1 << offsetBits` from the constructor. -/
def CacheConfig.lineSize (c : CacheConfig) : Nat := 1 <<< c.offsetBits

/-- Parsed address components, `AddressParts` in `CacheLogic.ts`. -/
structure AddressParts where
  tag : Nat
  setIndex : Nat
  offset : Nat
  deriving Repr, DecidableEq

/-- `parseAddress` from `CacheLogic.ts`: mask the address to 8 bits and
split it into offset / set index / tag fields. -/
def parseAddress (c : CacheConfig) (addr : Nat) : AddressParts :=
  let safeAddr := addr &&& 0xff
  let offset := safeAddr &&& ((1 <<< c.offsetBits) - 1)
  let setIndex :=
    if c.setBits > 0 then (safeAddr >>> c.offsetBits) &&& ((1 <<< c.setBits) - 1)
    else 0
  let tag := safeAddr >>> (c.offsetBits + c.setBits)
  { tag := tag, setIndex := setIndex, offset := offset }

/-- `getLineBaseAddress` from `CacheLogic.ts`:
`(tag << (offsetBits+setBits)) | (setIndex << offsetBits)`. -/
def getLineBaseAddress (c : CacheConfig) (tag setIndex : Nat) : Nat :=
  (tag <<< (c.offsetBits + c.setBits)) ||| (setIndex <<< c.offsetBits)

/-- The mutable cache store: `cacheData` (sets × ways) and the logical
clock `lruCounter`. -/
structure CacheState where
  cacheData : List (List CacheLine)
  lruCounter : Nat
  deriving Repr, DecidableEq

/-- The store built by the `CacheLogic` constructor: `numSets` sets of
`numWays` invalid lines, clock zero. -/
def initState (c : CacheConfig) : CacheState :=
  { cacheData := List.replicate c.numSets (List.replicate c.numWays initLine),
    lruCounter := 0 }

/-- Read a whole set (`this.cacheData[setIndex]`). -/
def CacheState.getSet (st : CacheState) (s : Nat) : List CacheLine :=
  st.cacheData.getD s []

/-- Read one line (`this.cacheData[setIndex][wayIndex]`). -/
def CacheState.getLine (st : CacheState) (s w : Nat) : CacheLine :=
  (st.getSet s).getD w initLine

/-- Functional update of one line, the effect of mutating
`this.cacheData[s][w]` in place. -/
def CacheState.setLine (st : CacheState) (s w : Nat) (l : CacheLine) : CacheState :=
  { st with cacheData := st.cacheData.set s ((st.getSet s).set w l) }

/-- The hit predicate of the `lookup` scan: `set[i].valid && set[i].tag === tag`. -/
def lineMatches (tag : Nat) (l : CacheLine) : Bool :=
  l.valid && l.tag == tag

/-- `lookup` from `CacheLogic.ts`: linear scan of the set, first way with
`valid && tag match` wins.  `none` models the `{hit:false, wayIndex:-1}`
result. -/
def lookup (st : CacheState) (setIndex tag : Nat) : Option Nat :=
  (st.getSet setIndex).findIdx? (lineMatches tag)

/-- A replacement policy, as in the repository: a function from the ways
of a set to the index to replace. -/
abbrev ReplacementPolicy := List CacheLine → Nat

/-- The scanning loop of `LRU_POLICY`: `i` is the index of the head of
`ways` in the original array, `victim`/`minLru` the best candidate so far
(`minLru = none` models the initial `Infinity`).  An invalid way returns
its index immediately; otherwise a strictly smaller `replaceState`
becomes the new candidate. -/
def lruGo : List CacheLine → Nat → Nat → Option Nat → Nat
  | [], _, victim, _ => victim
  | w :: rest, i, victim, minLru =>
    if !w.valid then i
    else if (match minLru with | none => true | some m => w.replaceState < m) then
      lruGo rest (i + 1) i (some w.replaceState)
    else lruGo rest (i + 1) victim minLru

/-- `LRU_POLICY` from the repository's `Cache` component: first invalid
way if any, else the way with the smallest `replaceState`. -/
def LRU_POLICY : ReplacementPolicy := fun ways => lruGo ways 0 0 none

/-- Result of `allocate` in `CacheLogic.ts`. -/
structure AllocationResult where
  victimIndex : Nat
  victim : CacheLine
  needsWriteback : Bool
  writebackAddr : Nat
  deriving Repr, DecidableEq

/-- `allocate` from `CacheLogic.ts`: the policy picks the victim;
writeback is needed iff the victim is valid and dirty. -/
def allocate (c : CacheConfig) (pol : ReplacementPolicy) (st : CacheState)
    (setIndex : Nat) : AllocationResult :=
  let set := st.getSet setIndex
  let victimIdx := pol set
  let victim := set.getD victimIdx initLine
  let needsWriteback := victim.valid && victim.dirty
  let writebackAddr :=
    if needsWriteback then getLineBaseAddress c victim.tag setIndex else 0
  { victimIndex := victimIdx, victim := victim,
    needsWriteback := needsWriteback, writebackAddr := writebackAddr }

/-- `updateReplaceState` from `CacheLogic.ts`:
`line.replaceState = ++this.lruCounter`. -/
def updateReplaceState (st : CacheState) (s w : Nat) : CacheState :=
  let line := st.getLine s w
  let st1 := st.setLine s w { line with replaceState := st.lruCounter + 1 }
  { st1 with lruCounter := st.lruCounter + 1 }

/-- `installLine` from `CacheLogic.ts`: valid, clean, new tag and data,
then touch the line. -/
def installLine (st : CacheState) (s w tag data : Nat) : CacheState :=
  let st1 := st.setLine s w
    { valid := true, dirty := false, tag := tag, data := data,
      replaceState := st.lruCounter + 1 }
  { st1 with lruCounter := st.lruCounter + 1 }

/-- `markClean` from `CacheLogic.ts`. -/
def markClean (l : CacheLine) : CacheLine := { l with dirty := false }

/-- `invalidateLine` from `CacheLogic.ts`. -/
def invalidateLine (l : CacheLine) : CacheLine :=
  { l with valid := false, dirty := false }

/-- `zeroLine` from `CacheLogic.ts`: valid, dirty, new tag, data zero,
touched. -/
def zeroLine (st : CacheState) (s w tag : Nat) : CacheState :=
  let st1 := st.setLine s w
    { valid := true, dirty := true, tag := tag, data := 0,
      replaceState := st.lruCounter + 1 }
  { st1 with lruCounter := st.lruCounter + 1 }

/-- `invalidateAll` from `CacheLogic.ts`: clear `valid`/`dirty` on every
line.  The source loops over all `numSets × numWays` slots, which are
exactly the entries of `cacheData`. -/
def invalidateAll (st : CacheState) : CacheState :=
  { st with cacheData := st.cacheData.map (fun set => set.map invalidateLine) }

/-- One entry of `getDirtyLines` in `CacheLogic.ts`. -/
structure DirtyEntry where
  setIndex : Nat
  wayIndex : Nat
  line : CacheLine
  addr : Nat
  deriving Repr, DecidableEq

/-- `getDirtyLines` from `CacheLogic.ts`: every valid-and-dirty line with
its reconstructed base address, sets outer, ways inner. -/
def getDirtyLines (c : CacheConfig) (st : CacheState) : List DirtyEntry :=
  (List.range c.numSets).flatMap fun s =>
    (List.range c.numWays).filterMap fun w =>
      let line := st.getLine s w
      if line.valid && line.dirty then
        some { setIndex := s, wayIndex := w, line := line,
               addr := getLineBaseAddress c line.tag s }
      else none

/-- The request packet union from `PacketScheme.tsx`: the nine request
kinds with their fields (`addr?`/`global` for the management kinds). -/
inductive RequestPacket where
  | read (addr size : Nat)
  | write (addr size value : Nat)
  | inval (addr : Option Nat) (global : Bool)
  | clean (addr : Option Nat) (global : Bool)
  | flush (addr : Option Nat) (global : Bool)
  | zero (addr : Nat)
  | prefetch (addr : Nat)
  | lineRead (addr lineSize : Nat)
  | lineWrite (addr lineSize data writeMask : Nat)
  deriving Repr, DecidableEq

/-- The response packet union from `PacketScheme.tsx`. -/
inductive ResponsePacket where
  | read (addr size value : Nat)
  | write (addr size value : Nat)
  | inval (success : Bool)
  | clean (success : Bool)
  | flush (success : Bool)
  | zero (addr : Nat) (success : Bool)
  | prefetch (addr : Nat) (success : Bool)
  | lineRead (addr lineSize data : Nat)
  | lineWrite (addr : Nat) (success : Bool)
  deriving Repr, DecidableEq

/-- The `isReadResponse` type guard from `PacketUtils.ts`. -/
def isReadResponse : ResponsePacket → Bool
  | .read _ _ _ => true
  | _ => false

/-- The `value` the fetch path extracts from the downstream response:
`let lineData = 0n; if (isReadResponse(resp)) lineData = resp.value`. -/
def extractReadData : ResponsePacket → Nat
  | .read _ _ value => value
  | _ => 0

/-- Observable actions of one transaction, in program order: downstream
bus transactions issued by the controller (`performTransaction` on its
downstream bus) and line installations (`installLine`). -/
inductive BusEvent where
  | busWrite (addr size value : Nat)
  | busRead (addr size : Nat)
  | install (setIndex wayIndex tag data : Nat)
  deriving Repr, DecidableEq

/-- The downstream slave (next cache level or memory) as a synchronous
response function. -/
abbrev Oracle := RequestPacket → ResponsePacket

/-- `writeBackLine` from `CacheRequestHandler.ts`: nothing happens unless
the line is valid and dirty; otherwise a downstream write of the line's
data to its base address is issued and the line is marked clean.  The
downstream response is discarded by the source, so the oracle is not
consulted; the transaction is recorded as a `busWrite` event. -/
def writeBackLine (c : CacheConfig) (st : CacheState) (s w : Nat) :
    CacheState × List BusEvent :=
  let line := st.getLine s w
  if line.valid && line.dirty then
    let baseAddr := getLineBaseAddress c line.tag s
    (st.setLine s w (markClean line),
      [BusEvent.busWrite baseAddr c.offsetBits line.data])
  else (st, [])

/-- `fetchLine` from `CacheRequestHandler.ts`: allocate a victim, write
it back if needed, issue a downstream read of the whole line at the new
tag's base address, and install the returned data (zero when the
response is not a read response).  Returns the victim way index. -/
def fetchLine (c : CacheConfig) (pol : ReplacementPolicy) (oracle : Oracle)
    (st : CacheState) (setIndex tag : Nat) :
    CacheState × List BusEvent × Nat :=
  let alloc := allocate c pol st setIndex
  let wb :=
    if alloc.needsWriteback then writeBackLine c st setIndex alloc.victimIndex
    else (st, [])
  let baseAddr := getLineBaseAddress c tag setIndex
  let response := oracle (RequestPacket.read baseAddr c.offsetBits)
  let lineData := extractReadData response
  let st2 := installLine wb.1 setIndex alloc.victimIndex tag lineData
  (st2, wb.2 ++ [BusEvent.busRead baseAddr c.offsetBits,
    BusEvent.install setIndex alloc.victimIndex tag lineData],
    alloc.victimIndex)

/-- The shared hit/miss prologue of the read/write, prefetch, line-read
and line-write handlers: on hit touch the line, on miss fetch it.
Returns the accessed way index. -/
def accessLine (c : CacheConfig) (pol : ReplacementPolicy) (oracle : Oracle)
    (st : CacheState) (setIndex tag : Nat) :
    CacheState × List BusEvent × Nat :=
  match lookup st setIndex tag with
  | some w => (updateReplaceState st setIndex w, [], w)
  | none => fetchLine c pol oracle st setIndex tag

/-- `handleReadWrite` from `CacheRequestHandler.ts`, read case: access the
line and read `byteCount` bytes at the parsed offset. -/
def handleRead (c : CacheConfig) (pol : ReplacementPolicy) (oracle : Oracle)
    (st : CacheState) (addr size : Nat) :
    CacheState × List BusEvent × ResponsePacket :=
  let safeAddr := addr &&& 0xff
  let p := parseAddress c safeAddr
  let byteCount := getSizeInBytes size
  let a := accessLine c pol oracle st p.setIndex p.tag
  let value := readBytesFromLine (a.1.getLine p.setIndex a.2.2).data p.offset byteCount
  (a.1, a.2.1, ResponsePacket.read safeAddr size value)

/-- `handleReadWrite` from `CacheRequestHandler.ts`, write case: access
the line, write `byteCount` bytes at the parsed offset and set the dirty
bit; the response echoes the request value. -/
def handleWrite (c : CacheConfig) (pol : ReplacementPolicy) (oracle : Oracle)
    (st : CacheState) (addr size value : Nat) :
    CacheState × List BusEvent × ResponsePacket :=
  let safeAddr := addr &&& 0xff
  let p := parseAddress c safeAddr
  let byteCount := getSizeInBytes size
  let a := accessLine c pol oracle st p.setIndex p.tag
  let line := a.1.getLine p.setIndex a.2.2
  let st2 := a.1.setLine p.setIndex a.2.2
    { line with
      data := writeBytesToLine line.data p.offset value byteCount,
      dirty := true }
  (st2, a.2.1, ResponsePacket.write safeAddr size value)

/-- `handleInvalidate` from `CacheRequestHandler.ts`: global (or
addressless) requests invalidate every line; addressed requests
invalidate the matching line and are a no-op on miss.  The response
always carries `success: true`. -/
def handleInvalidate (c : CacheConfig) (st : CacheState)
    (addr : Option Nat) (global : Bool) :
    CacheState × List BusEvent × ResponsePacket :=
  match addr, global with
  | some a, false =>
    let p := parseAddress c a
    (match lookup st p.setIndex p.tag with
     | some w =>
       (st.setLine p.setIndex w (invalidateLine (st.getLine p.setIndex w)), [],
         ResponsePacket.inval true)
     | none => (st, [], ResponsePacket.inval true))
  | _, _ => (invalidateAll st, [], ResponsePacket.inval true)

/-- The `getDirtyLines` sweep of the global clean handler: write back
each recorded entry in order. -/
def cleanSweep (c : CacheConfig) (st : CacheState) :
    List DirtyEntry → CacheState × List BusEvent
  | [] => (st, [])
  | e :: rest =>
    let wb := writeBackLine c st e.setIndex e.wayIndex
    let r := cleanSweep c wb.1 rest
    (r.1, wb.2 ++ r.2)

/-- `handleClean` from `CacheRequestHandler.ts`: global requests write
back every dirty line; addressed requests write back the matching line
(keeping it valid) and are a no-op on miss. -/
def handleClean (c : CacheConfig) (st : CacheState)
    (addr : Option Nat) (global : Bool) :
    CacheState × List BusEvent × ResponsePacket :=
  match addr, global with
  | some a, false =>
    let p := parseAddress c a
    (match lookup st p.setIndex p.tag with
     | some w =>
       let wb := writeBackLine c st p.setIndex w
       (wb.1, wb.2, ResponsePacket.clean true)
     | none => (st, [], ResponsePacket.clean true))
  | _, _ =>
    let r := cleanSweep c st (getDirtyLines c st)
    (r.1, r.2, ResponsePacket.clean true)

/-- All `(set, way)` coordinates in the order of the global flush loops
(sets outer, ways inner). -/
def allCoords (c : CacheConfig) : List (Nat × Nat) :=
  (List.range c.numSets).flatMap fun s =>
    (List.range c.numWays).map fun w => (s, w)

/-- The body of the global flush loop: write the line back, then
invalidate it. -/
def flushSweep (c : CacheConfig) (st : CacheState) :
    List (Nat × Nat) → CacheState × List BusEvent
  | [] => (st, [])
  | (s, w) :: rest =>
    let wb := writeBackLine c st s w
    let st2 := wb.1.setLine s w (invalidateLine (wb.1.getLine s w))
    let r := flushSweep c st2 rest
    (r.1, wb.2 ++ r.2)

/-- `handleFlush` from `CacheRequestHandler.ts`: global requests write
back and invalidate every line; addressed requests do the same to the
matching line and are a no-op on miss. -/
def handleFlush (c : CacheConfig) (st : CacheState)
    (addr : Option Nat) (global : Bool) :
    CacheState × List BusEvent × ResponsePacket :=
  match addr, global with
  | some a, false =>
    let p := parseAddress c a
    (match lookup st p.setIndex p.tag with
     | some w =>
       let wb := writeBackLine c st p.setIndex w
       let st2 := wb.1.setLine p.setIndex w (invalidateLine (wb.1.getLine p.setIndex w))
       (st2, wb.2, ResponsePacket.flush true)
     | none => (st, [], ResponsePacket.flush true))
  | _, _ =>
    let r := flushSweep c st (allCoords c)
    (r.1, r.2, ResponsePacket.flush true)

/-- `handleZero` from `CacheRequestHandler.ts`: on hit zero the matching
line; on miss allocate a victim, write it back if dirty, and zero it —
never fetching from downstream. -/
def handleZero (c : CacheConfig) (pol : ReplacementPolicy) (st : CacheState)
    (addr : Nat) : CacheState × List BusEvent × ResponsePacket :=
  let safeAddr := addr &&& 0xff
  let p := parseAddress c safeAddr
  match lookup st p.setIndex p.tag with
  | some w =>
    (zeroLine st p.setIndex w p.tag, [], ResponsePacket.zero safeAddr true)
  | none =>
    let alloc := allocate c pol st p.setIndex
    let wb := writeBackLine c st p.setIndex alloc.victimIndex
    (zeroLine wb.1 p.setIndex alloc.victimIndex p.tag, wb.2,
      ResponsePacket.zero safeAddr true)

/-- `handlePrefetch` from `CacheRequestHandler.ts`: on hit refresh the
replacement state, on miss fetch the line; the fetched value is
discarded. -/
def handlePrefetch (c : CacheConfig) (pol : ReplacementPolicy) (oracle : Oracle)
    (st : CacheState) (addr : Nat) :
    CacheState × List BusEvent × ResponsePacket :=
  let safeAddr := addr &&& 0xff
  let p := parseAddress c safeAddr
  let a := accessLine c pol oracle st p.setIndex p.tag
  (a.1, a.2.1, ResponsePacket.prefetch safeAddr true)

/-- `handleLineRead` from `CacheRequestHandler.ts`: access the line and
return its whole data word. -/
def handleLineRead (c : CacheConfig) (pol : ReplacementPolicy) (oracle : Oracle)
    (st : CacheState) (addr lineSize : Nat) :
    CacheState × List BusEvent × ResponsePacket :=
  let safeAddr := addr &&& 0xff
  let p := parseAddress c safeAddr
  let a := accessLine c pol oracle st p.setIndex p.tag
  let lineData := (a.1.getLine p.setIndex a.2.2).data
  (a.1, a.2.1, ResponsePacket.lineRead safeAddr lineSize lineData)

/-- `handleLineWrite` from `CacheRequestHandler.ts`: access the line,
merge the request data under the per-byte write mask and set the dirty
bit. -/
def handleLineWrite (c : CacheConfig) (pol : ReplacementPolicy) (oracle : Oracle)
    (st : CacheState) (addr lineSize data writeMask : Nat) :
    CacheState × List BusEvent × ResponsePacket :=
  let safeAddr := addr &&& 0xff
  let p := parseAddress c safeAddr
  let a := accessLine c pol oracle st p.setIndex p.tag
  let line := a.1.getLine p.setIndex a.2.2
  let st2 := a.1.setLine p.setIndex a.2.2
    { line with
      data := applyWriteMask line.data data writeMask lineSize,
      dirty := true }
  (st2, a.2.1, ResponsePacket.lineWrite safeAddr true)

/-- `processTransaction` from `CacheRequestHandler.ts`: route the request
packet to its handler. -/
def processTransaction (c : CacheConfig) (pol : ReplacementPolicy)
    (oracle : Oracle) (st : CacheState) :
    RequestPacket → CacheState × List BusEvent × ResponsePacket
  | .inval addr global => handleInvalidate c st addr global
  | .clean addr global => handleClean c st addr global
  | .flush addr global => handleFlush c st addr global
  | .zero addr => handleZero c pol st addr
  | .prefetch addr => handlePrefetch c pol oracle st addr
  | .lineRead addr lineSize => handleLineRead c pol oracle st addr lineSize
  | .lineWrite addr lineSize data writeMask =>
    handleLineWrite c pol oracle st addr lineSize data writeMask
  | .read addr size => handleRead c pol oracle st addr size
  | .write addr size value => handleWrite c pol oracle st addr size value

/-- Process a sequence of requests, each with the downstream behaviour in
force while it runs. -/
def processAll (c : CacheConfig) (pol : ReplacementPolicy)
    (st : CacheState) : List (RequestPacket × Oracle) → CacheState
  | [] => st
  | (req, oracle) :: rest =>
    processAll c pol (processTransaction c pol oracle st req).1 rest

/-- `beats x m`: the loop guard of `LRU_POLICY` — `x < minLru`, where
`minLru = none` is the initial `Infinity`. -/
def beats (x : Nat) : Option Nat → Bool
  | none => true
  | some m => x < m

/-- Well-formed store: exactly `numSets` sets of exactly `numWays` ways,
as built by the constructor. -/
def wfState (c : CacheConfig) (st : CacheState) : Prop :=
  st.cacheData.length = c.numSets ∧ ∀ set ∈ st.cacheData, set.length = c.numWays

/-- No two valid ways of a set carry the same tag. -/
def noDupTags (set : List CacheLine) : Prop :=
  ∀ i j (hi : i < set.length) (hj : j < set.length), i ≠ j →
    (set.get ⟨i, hi⟩).valid = true → (set.get ⟨j, hj⟩).valid = true →
    (set.get ⟨i, hi⟩).tag ≠ (set.get ⟨j, hj⟩).tag

/-- The at-most-one-hit invariant over the whole cache. -/
def cacheInv (st : CacheState) : Prop :=
  ∀ set ∈ st.cacheData, noDupTags set

-- ==========================================================================
-- Byte-level lemmas for line data
-- ==========================================================================

theorem testBit_readByteFromLine (d o j : Nat) :
    (readByteFromLine d o).testBit j = (decide (j < 8) && d.testBit (o * 8 + j)) := by
  have h8 : (0xff : Nat) = 2 ^ 8 - 1 := by norm_num
  rw [readByteFromLine, h8, Nat.testBit_land, Nat.testBit_two_pow_sub_one,
    Nat.testBit_shiftRight]
  exact Bool.and_comm _ _

theorem testBit_writeByteToLine (d o v j : Nat) :
    (writeByteToLine d o v).testBit j =
      if o * 8 ≤ j ∧ j < o * 8 + 8 then v.testBit (j - o * 8) else d.testBit j := by
  have h8 : (0xff : Nat) = 2 ^ 8 - 1 := by norm_num
  rw [writeByteToLine]
  simp only [Nat.testBit_lor, Nat.testBit_ldiff, Nat.testBit_shiftLeft,
    Nat.testBit_land, h8, Nat.testBit_two_pow_sub_one, ge_iff_le]
  by_cases hlo : o * 8 ≤ j
  · by_cases hhi : j < o * 8 + 8
    · have h1 : j - o * 8 < 8 := by omega
      simp [hlo, hhi, h1, Bool.and_comm]
    · have h1 : ¬(j - o * 8 < 8) := by omega
      simp [hlo, hhi, h1]
  · have h1 : ¬(o * 8 ≤ j ∧ j < o * 8 + 8) := by omega
    simp [hlo, h1]

theorem readBytesFromLine_eq (d o : Nat) :
    ∀ n, readBytesFromLine d o n = (d >>> (o * 8)) % 2 ^ (n * 8) := by
  intro n
  induction n with
  | zero => simp [readBytesFromLine, Nat.mod_one]
  | succ n ih =>
    rw [readBytesFromLine, ih]
    apply Nat.eq_of_testBit_eq
    intro j
    simp only [Nat.testBit_lor, Nat.testBit_mod_two_pow, Nat.testBit_shiftLeft,
      Nat.testBit_shiftRight, testBit_readByteFromLine, ge_iff_le]
    by_cases h1 : j < n * 8
    · have h2 : ¬(n * 8 ≤ j) := by omega
      have h3 : j < (n + 1) * 8 := by omega
      simp [h1, h2, h3]
    · by_cases h3 : j < (n + 1) * 8
      · have h2 : n * 8 ≤ j := by omega
        have h4 : j - n * 8 < 8 := by omega
        have h5 : (o + n) * 8 + (j - n * 8) = o * 8 + j := by ring_nf; omega
        simp [h1, h2, h3, h4, h5]
      · have h2 : ¬(j - n * 8 < 8) := by omega
        have h2b : n * 8 ≤ j := by omega
        simp [h1, h2, h3, h2b]

theorem testBit_writeBytesToLine (d o v : Nat) :
    ∀ n j, (writeBytesToLine d o v n).testBit j =
      if o * 8 ≤ j ∧ j < (o + n) * 8 then v.testBit (j - o * 8) else d.testBit j := by
  intro n
  induction n with
  | zero =>
    intro j
    rw [writeBytesToLine, if_neg (by omega)]
  | succ n ih =>
    intro j
    rw [writeBytesToLine, testBit_writeByteToLine, ih]
    by_cases h1 : (o + n) * 8 ≤ j ∧ j < (o + n) * 8 + 8
    · have h2 : o * 8 ≤ j ∧ j < (o + (n + 1)) * 8 := by constructor <;> omega
      have h3 : j - (o + n) * 8 < 8 := by omega
      have h4 : n * 8 + (j - (o + n) * 8) = j - o * 8 := by omega
      rw [if_pos h1, if_pos h2, Nat.testBit_land, Nat.testBit_shiftRight]
      have h8 : (0xff : Nat) = 2 ^ 8 - 1 := by norm_num
      rw [h8, Nat.testBit_two_pow_sub_one, h4]
      simp [h3]
    · rw [if_neg h1]
      by_cases h5 : o * 8 ≤ j ∧ j < (o + n) * 8
      · have h6 : o * 8 ≤ j ∧ j < (o + (n + 1)) * 8 := by constructor <;> omega
        rw [if_pos h5, if_pos h6]
      · have h7 : ¬(o * 8 ≤ j ∧ j < (o + (n + 1)) * 8) := by omega
        rw [if_neg h5, if_neg h7]

/-- Round trip: reading back the bytes just written yields the value
masked to that many bytes. -/
theorem readBytes_writeBytes (d o v n : Nat) :
    readBytesFromLine (writeBytesToLine d o v n) o n = v % 2 ^ (n * 8) := by
  rw [readBytesFromLine_eq]
  apply Nat.eq_of_testBit_eq
  intro j
  rw [Nat.testBit_mod_two_pow, Nat.testBit_mod_two_pow, Nat.testBit_shiftRight,
    testBit_writeBytesToLine]
  by_cases h1 : j < n * 8
  · have h2 : o * 8 ≤ o * 8 + j ∧ o * 8 + j < (o + n) * 8 := by constructor <;> omega
    have h3 : o * 8 + j - o * 8 = j := by omega
    simp [h1, h2, h3]
  · simp [h1]

theorem maskToSize_eq_mod (v s : Nat) :
    maskToSize v s = v % 2 ^ (getSizeInBytes s * 8) := by
  rw [maskToSize, Nat.shiftLeft_eq, one_mul]
  apply Nat.eq_of_testBit_eq
  intro j
  rw [Nat.testBit_land, Nat.testBit_two_pow_sub_one, Nat.testBit_mod_two_pow]
  exact Bool.and_comm _ _

-- ==========================================================================
-- applyWriteMask lemmas
-- ==========================================================================

theorem land_one_eq_one_iff_testBit (m i : Nat) :
    ((m >>> i) &&& 1 = 1) ↔ m.testBit i = true := by
  rw [Nat.and_one_is_mod, Nat.shiftRight_eq_div_pow, Nat.testBit_to_div_mod]
  simp

theorem testBit_patchByte (r nw k j : Nat) :
    (Nat.ldiff r (0xff <<< (k * 8)) ||| (nw &&& (0xff <<< (k * 8)))).testBit j =
      if k * 8 ≤ j ∧ j < k * 8 + 8 then nw.testBit j else r.testBit j := by
  have h8 : (0xff : Nat) = 2 ^ 8 - 1 := by norm_num
  simp only [Nat.testBit_lor, Nat.testBit_ldiff, Nat.testBit_land,
    Nat.testBit_shiftLeft, h8, Nat.testBit_two_pow_sub_one, ge_iff_le]
  by_cases hlo : k * 8 ≤ j
  · by_cases hhi : j < k * 8 + 8
    · have h1 : j - k * 8 < 8 := by omega
      simp [hlo, hhi, h1]
    · have h1 : ¬(j - k * 8 < 8) := by omega
      simp [hlo, hhi, h1]
  · have h1 : ¬(k * 8 ≤ j ∧ j < k * 8 + 8) := by omega
    simp [hlo, h1]

theorem testBit_applyWriteMask (o nw m : Nat) :
    ∀ n j, (applyWriteMask o nw m n).testBit j =
      if j < n * 8 ∧ (m >>> (j / 8)) &&& 1 = 1 then nw.testBit j
      else o.testBit j := by
  intro n
  induction n with
  | zero =>
    intro j
    rw [applyWriteMask, if_neg (by omega)]
  | succ n ih =>
    intro j
    simp only [applyWriteMask]
    by_cases hbit : (m >>> n) &&& 1 = 1
    · rw [if_pos hbit, testBit_patchByte, ih]
      by_cases hb : n * 8 ≤ j ∧ j < n * 8 + 8
      · have hd : j / 8 = n := by omega
        have h2 : j < (n + 1) * 8 ∧ (m >>> (j / 8)) &&& 1 = 1 :=
          ⟨by omega, by rw [hd]; exact hbit⟩
        rw [if_pos hb, if_pos h2]
      · rw [if_neg hb]
        by_cases hc : j < n * 8 ∧ (m >>> (j / 8)) &&& 1 = 1
        · rw [if_pos hc, if_pos (⟨by omega, hc.2⟩ :
            j < (n + 1) * 8 ∧ (m >>> (j / 8)) &&& 1 = 1)]
        · have h6 : ¬(j < (n + 1) * 8 ∧ (m >>> (j / 8)) &&& 1 = 1) := by
            intro h
            by_cases h2 : j < n * 8
            · exact hc ⟨h2, h.2⟩
            · exact hb ⟨by omega, by omega⟩
          rw [if_neg hc, if_neg h6]
    · rw [if_neg hbit, ih]
      by_cases hc : j < n * 8 ∧ (m >>> (j / 8)) &&& 1 = 1
      · rw [if_pos hc, if_pos (⟨by omega, hc.2⟩ :
          j < (n + 1) * 8 ∧ (m >>> (j / 8)) &&& 1 = 1)]
      · have h6 : ¬(j < (n + 1) * 8 ∧ (m >>> (j / 8)) &&& 1 = 1) := by
          intro h
          by_cases h2 : j < n * 8
          · exact hc ⟨h2, h.2⟩
          · have hd : j / 8 = n := by omega
            exact hbit (hd ▸ h.2)
        rw [if_neg hc, if_neg h6]

theorem readByte_applyWriteMask (o nw m n i : Nat) (h : i < n) :
    readByteFromLine (applyWriteMask o nw m n) i =
      if (m >>> i) &&& 1 = 1 then readByteFromLine nw i
      else readByteFromLine o i := by
  by_cases hc : (m >>> i) &&& 1 = 1
  · rw [if_pos hc]
    apply Nat.eq_of_testBit_eq
    intro j
    rw [testBit_readByteFromLine, testBit_readByteFromLine, testBit_applyWriteMask]
    by_cases hj : j < 8
    · have hd : (i * 8 + j) / 8 = i := by omega
      have hcond : i * 8 + j < n * 8 ∧ (m >>> ((i * 8 + j) / 8)) &&& 1 = 1 := by
        refine ⟨by omega, ?_⟩
        rw [hd]; exact hc
      rw [if_pos hcond]
    · simp [hj]
  · rw [if_neg hc]
    apply Nat.eq_of_testBit_eq
    intro j
    rw [testBit_readByteFromLine, testBit_readByteFromLine, testBit_applyWriteMask]
    by_cases hj : j < 8
    · have hd : (i * 8 + j) / 8 = i := by omega
      have hcond : ¬(i * 8 + j < n * 8 ∧ (m >>> ((i * 8 + j) / 8)) &&& 1 = 1) := by
        rw [hd]; exact fun hx => hc hx.2
      rw [if_neg hcond]
    · simp [hj]

theorem applyWriteMask_zero_mask (o nw : Nat) : ∀ n, applyWriteMask o nw 0 n = o := by
  intro n
  induction n with
  | zero => rfl
  | succ n ih =>
    rw [applyWriteMask, ih, if_neg]
    simp

theorem applyWriteMask_full_mask (o nw n : Nat) (h : o < 2 ^ (n * 8)) :
    applyWriteMask o nw (generateFullMask n) n = nw % 2 ^ (n * 8) := by
  apply Nat.eq_of_testBit_eq
  intro j
  rw [testBit_applyWriteMask, Nat.testBit_mod_two_pow]
  by_cases hj : j < n * 8
  · have hcond : j < n * 8 ∧ ((generateFullMask n) >>> (j / 8)) &&& 1 = 1 := by
      refine ⟨hj, ?_⟩
      rw [land_one_eq_one_iff_testBit, generateFullMask, Nat.shiftLeft_eq, one_mul,
        Nat.testBit_two_pow_sub_one]
      simp only [decide_eq_true_eq]
      omega
    simp [hcond, hj]
  · have hcond : ¬(j < n * 8 ∧ ((generateFullMask n) >>> (j / 8)) &&& 1 = 1) := by
      exact fun hx => hj hx.1
    have hzero : o.testBit j = false := by
      apply Nat.testBit_lt_two_pow
      calc o < 2 ^ (n * 8) := h
        _ ≤ 2 ^ j := Nat.pow_le_pow_right (by omega) (by omega)
    simp [hcond, hj, hzero]

theorem applyWriteMask_idem (o nw m n : Nat) :
    applyWriteMask (applyWriteMask o nw m n) nw m n = applyWriteMask o nw m n := by
  apply Nat.eq_of_testBit_eq
  intro j
  rw [testBit_applyWriteMask, testBit_applyWriteMask]
  by_cases hc : j < n * 8 ∧ (m >>> (j / 8)) &&& 1 = 1
  · rw [if_pos hc, if_pos hc]
  · rw [if_neg hc, if_neg hc]

-- ==========================================================================
-- LRU policy lemmas
-- ==========================================================================

theorem lruGo_first_invalid :
    ∀ (ways : List CacheLine) (i v : Nat) (m : Option Nat),
      (∃ w ∈ ways, w.valid = false) →
      lruGo ways i v m = i + ways.findIdx (fun w => !w.valid) := by
  intro ways
  induction ways with
  | nil => intro i v m h; simp at h
  | cons w rest ih =>
    intro i v m h
    by_cases hw : w.valid
    · have hrest : ∃ x ∈ rest, x.valid = false := by
        rcases h with ⟨x, hx, hxv⟩
        rcases List.mem_cons.1 hx with rfl | hx2
        · rw [hw] at hxv; cases hxv
        · exact ⟨x, hx2, hxv⟩
      simp only [lruGo, List.findIdx_cons, hw, Bool.not_true, cond_false,
        Bool.false_eq_true, if_false]
      by_cases hbeat : (match m with | none => true | some mv => w.replaceState < mv) = true
      · rw [if_pos hbeat, ih (i + 1) i (some w.replaceState) hrest]
        omega
      · rw [if_neg hbeat, ih (i + 1) v m hrest]
        omega
    · have hw2 : w.valid = false := by
        cases hv : w.valid
        · rfl
        · exact absurd hv hw
      simp [lruGo, List.findIdx_cons, hw2]

theorem lruGo_all_valid :
    ∀ (ways : List CacheLine), (∀ w ∈ ways, w.valid = true) →
    ∀ (i v : Nat) (m : Option Nat),
      (lruGo ways i v m = v ∧
        ∀ k, k < ways.length → beats (ways.getD k initLine).replaceState m = false)
      ∨ (∃ kr, kr < ways.length ∧
          lruGo ways i v m = i + kr ∧
          beats (ways.getD kr initLine).replaceState m = true ∧
          (∀ k, k < ways.length →
            beats (ways.getD k initLine).replaceState m = true →
            (ways.getD kr initLine).replaceState ≤ (ways.getD k initLine).replaceState) ∧
          (∀ k, k < ways.length → k < kr →
            beats (ways.getD k initLine).replaceState m = true →
            (ways.getD kr initLine).replaceState < (ways.getD k initLine).replaceState)) := by
  intro ways
  induction ways with
  | nil =>
    intro _ i v m
    left
    refine ⟨rfl, ?_⟩
    intro k hk; simp at hk
  | cons w rest ih =>
    intro hval i v m
    have hw : w.valid = true := hval w (List.mem_cons_self w rest)
    have hvrest : ∀ x ∈ rest, x.valid = true :=
      fun x hx => hval x (List.mem_cons_of_mem w hx)
    simp only [lruGo, hw, Bool.not_true, Bool.false_eq_true, if_false]
    by_cases hbeat : (match m with | none => true | some mv => w.replaceState < mv) = true
    · -- the head beats the accumulator and becomes the candidate
      rw [if_pos hbeat]
      have hbm : beats w.replaceState m = true := by
        cases m with
        | none => rfl
        | some mv => simpa [beats] using hbeat
      rcases ih hvrest (i + 1) i (some w.replaceState) with ⟨heq, hall⟩ | hex
      · -- nothing in the tail beats the head: the head wins
        right
        refine ⟨0, by simp, by simpa using heq, by simpa using hbm, ?_, ?_⟩
        · intro k hk hbk
          match k with
          | 0 => exact le_refl _
          | k' + 1 =>
            have hk' : k' < rest.length := by simpa using hk
            have h2 := hall k' hk'
            simp only [beats, List.getD_cons_succ, List.getD_cons_zero,
              decide_eq_false_iff_not, not_lt] at h2 ⊢
            exact h2
        · intro k hk hklt _; omega
      · rcases hex with ⟨kr, hkr, heq, hbkr, hmin, hfirst⟩
        right
        have hbw : (rest.getD kr initLine).replaceState < w.replaceState := by
          simpa [beats] using hbkr
        refine ⟨kr + 1, by simpa using Nat.succ_lt_succ hkr,
          by rw [heq]; omega, ?_, ?_, ?_⟩
        · -- the winner still beats the original accumulator
          simp only [List.getD_cons_succ]
          cases m with
          | none => rfl
          | some mv =>
            have hb2 : w.replaceState < mv := by simpa using hbeat
            simp only [beats, decide_eq_true_eq]
            omega
        · intro k hk hbk
          match k with
          | 0 =>
            simp only [List.getD_cons_succ, List.getD_cons_zero]
            omega
          | k' + 1 =>
            have hk' : k' < rest.length := by simpa using hk
            simp only [List.getD_cons_succ]
            by_cases hbk' : beats (rest.getD k' initLine).replaceState (some w.replaceState) = true
            · exact hmin k' hk' hbk'
            · have h2 : ¬((rest.getD k' initLine).replaceState < w.replaceState) := by
                simpa [beats] using hbk'
              omega
        · intro k hk hklt hbk
          match k with
          | 0 =>
            simp only [List.getD_cons_succ, List.getD_cons_zero]
            omega
          | k' + 1 =>
            have hk' : k' < rest.length := by simpa using hk
            have hklt' : k' < kr := by omega
            simp only [List.getD_cons_succ]
            by_cases hbk' : beats (rest.getD k' initLine).replaceState (some w.replaceState) = true
            · exact hfirst k' hk' hklt' hbk'
            · have h2 : ¬((rest.getD k' initLine).replaceState < w.replaceState) := by
                simpa [beats] using hbk'
              omega
    · -- the head does not beat the accumulator
      rw [if_neg hbeat]
      have hbm : beats w.replaceState m = false := by
        cases m with
        | none => exact absurd rfl hbeat
        | some mv => simpa [beats] using hbeat
      rcases ih hvrest (i + 1) v m with ⟨heq, hall⟩ | hex
      · left
        refine ⟨heq, ?_⟩
        intro k hk
        match k with
        | 0 => simpa using hbm
        | k' + 1 =>
          have hk' : k' < rest.length := by simpa using hk
          simpa using hall k' hk'
      · rcases hex with ⟨kr, hkr, heq, hbkr, hmin, hfirst⟩
        right
        refine ⟨kr + 1, by simpa using Nat.succ_lt_succ hkr,
          by rw [heq]; omega, by simpa using hbkr, ?_, ?_⟩
        · intro k hk hbk
          match k with
          | 0 =>
            simp only [List.getD_cons_zero] at hbk
            rw [hbm] at hbk; cases hbk
          | k' + 1 =>
            have hk' : k' < rest.length := by simpa using hk
            simp only [List.getD_cons_succ]
            exact hmin k' hk' (by simpa using hbk)
        · intro k hk hklt hbk
          match k with
          | 0 =>
            simp only [List.getD_cons_zero] at hbk
            rw [hbm] at hbk; cases hbk
          | k' + 1 =>
            have hk' : k' < rest.length := by simpa using hk
            have hklt' : k' < kr := by omega
            simp only [List.getD_cons_succ]
            exact hfirst k' hk' hklt' (by simpa using hbk)

-- ==========================================================================
-- Store access lemmas
-- ==========================================================================

theorem getSet_setLine (st : CacheState) (s w : Nat) (l : CacheLine) (t : Nat) :
    (st.setLine s w l).getSet t =
      if t = s then (st.getSet s).set w l else st.getSet t := by
  show (st.cacheData.set s ((st.getSet s).set w l)).getD t [] = _
  rw [List.getD_eq_getElem?_getD]
  by_cases hts : t = s
  · subst hts
    rw [if_pos rfl]
    by_cases hs : t < st.cacheData.length
    · rw [List.getElem?_set_self hs]
      rfl
    · rw [List.set_eq_of_length_le (by omega)]
      have h1 : st.cacheData[t]? = none := by
        rw [List.getElem?_eq_none_iff]; omega
      rw [h1]
      show ([] : List CacheLine) = (st.getSet t).set w l
      unfold CacheState.getSet
      rw [List.getD_eq_default _ _ (by omega)]
      cases w <;> rfl
  · rw [if_neg hts, List.getElem?_set_ne (by omega)]
    rw [CacheState.getSet, List.getD_eq_getElem?_getD]

theorem getLine_setLine (st : CacheState) (s w : Nat) (l : CacheLine) (t u : Nat) :
    (st.setLine s w l).getLine t u =
      if t = s ∧ u = w ∧ w < (st.getSet s).length then l else st.getLine t u := by
  unfold CacheState.getLine
  rw [getSet_setLine]
  by_cases hts : t = s
  · subst hts
    rw [if_pos rfl]
    by_cases huw : u = w
    · subst huw
      by_cases hw : u < (st.getSet t).length
      · rw [if_pos ⟨rfl, rfl, hw⟩, List.getD_eq_getElem?_getD,
          List.getElem?_set_self hw]
        rfl
      · rw [if_neg (by tauto), List.set_eq_of_length_le (by omega)]
    · rw [if_neg (by tauto), List.getD_eq_getElem?_getD,
        List.getElem?_set_ne (by omega), ← List.getD_eq_getElem?_getD]
  · rw [if_neg hts, if_neg (by tauto)]

theorem lruCounter_setLine (st : CacheState) (s w : Nat) (l : CacheLine) :
    (st.setLine s w l).lruCounter = st.lruCounter := rfl

theorem length_getSet_setLine (st : CacheState) (s w : Nat) (l : CacheLine) (t : Nat) :
    ((st.setLine s w l).getSet t).length = (st.getSet t).length := by
  rw [getSet_setLine]
  by_cases hts : t = s
  · subst hts; rw [if_pos rfl, List.length_set]
  · rw [if_neg hts]

theorem getLine_eq_getD (st : CacheState) (s w : Nat) :
    st.getLine s w = (st.getSet s).getD w initLine := rfl

-- ==========================================================================
-- Lookup lemmas
-- ==========================================================================

theorem lookup_eq_none_iff (st : CacheState) (s t : Nat) :
    lookup st s t = none ↔ ∀ l ∈ st.getSet s, lineMatches t l = false := by
  unfold lookup
  exact List.findIdx?_eq_none_iff

theorem lookup_eq_some_iff (st : CacheState) (s t : Nat) (w : Nat) :
    lookup st s t = some w ↔
      ∃ h : w < (st.getSet s).length,
        lineMatches t ((st.getSet s).getD w initLine) = true ∧
        ∀ j, j < w → lineMatches t ((st.getSet s).getD j initLine) = false := by
  unfold lookup
  rw [List.findIdx?_eq_some_iff_getElem]
  constructor
  · rintro ⟨h, hm, hprev⟩
    refine ⟨h, by rwa [List.getD_eq_getElem _ _ h], ?_⟩
    intro j hj
    have hjl : j < (st.getSet s).length := by omega
    rw [List.getD_eq_getElem _ _ hjl]
    have := hprev j hj
    simp only [Bool.not_eq_true] at this
    exact this
  · rintro ⟨h, hm, hprev⟩
    refine ⟨h, by rwa [List.getD_eq_getElem _ _ h] at hm, ?_⟩
    intro j hj
    have hjl : j < (st.getSet s).length := by omega
    have := hprev j hj
    rw [List.getD_eq_getElem _ _ hjl] at this
    simp [this]

/-- Replacing a line with one that answers every tag probe the same way
leaves every lookup unchanged. -/
theorem lookup_setLine_same_match (st : CacheState) (s w : Nat) (l : CacheLine)
    (hm : ∀ t, lineMatches t l = lineMatches t (st.getLine s w)) (s' t : Nat) :
    lookup (st.setLine s w l) s' t = lookup st s' t := by
  unfold lookup
  rw [getSet_setLine]
  by_cases hts : s' = s
  · subst hts
    rw [if_pos rfl]
    by_cases hw : w < (st.getSet s').length
    · cases hres : (st.getSet s').findIdx? (lineMatches t) with
      | none =>
        rw [List.findIdx?_eq_none_iff] at hres ⊢
        intro x hx
        rcases List.mem_or_eq_of_mem_set hx with hx2 | rfl
        · exact hres x hx2
        · rw [hm t, getLine_eq_getD, List.getD_eq_getElem _ _ hw]
          exact hres _ (List.getElem_mem hw)
      | some i =>
        rw [List.findIdx?_eq_some_iff_getElem] at hres ⊢
        rcases hres with ⟨hi, hmi, hprev⟩
        have hlen : i < ((st.getSet s').set w l).length := by
          rw [List.length_set]; exact hi
        refine ⟨hlen, ?_, ?_⟩
        · rw [List.getElem_set]
          by_cases hiw : w = i
          · subst hiw
            rw [if_pos rfl, hm t, getLine_eq_getD, List.getD_eq_getElem _ _ hw]
            exact hmi
          · rw [if_neg hiw]
            exact hmi
        · intro j hj
          have hjl : j < (st.getSet s').length := by omega
          rw [List.getElem_set]
          by_cases hjw : w = j
          · subst hjw
            rw [if_pos rfl, hm t, getLine_eq_getD, List.getD_eq_getElem _ _ hw]
            exact hprev _ hj
          · rw [if_neg hjw]
            exact hprev j hj
    · rw [List.set_eq_of_length_le (by omega)]
  · rw [if_neg hts]

/-- Variant of `lookup_setLine_same_match` keyed on the `valid`/`tag`
fields. -/
theorem lookup_setLine_keep (st : CacheState) (s w : Nat) (l : CacheLine)
    (s' t : Nat) (hv : l.valid = (st.getLine s w).valid)
    (ht : l.tag = (st.getLine s w).tag) :
    lookup (st.setLine s w l) s' t = lookup st s' t :=
  lookup_setLine_same_match st s w l
    (fun t' => by rw [lineMatches, lineMatches, hv, ht]) s' t

/-- Rewriting form of `lookup_setLine_keep` for functional record updates
that keep the `valid` and `tag` fields of the line they replace. -/
theorem lookup_setLine_mkKeep (st : CacheState) (s w : Nat) (dt : Bool)
    (d rs : Nat) (s' t : Nat) :
    lookup (st.setLine s w
      ⟨(st.getLine s w).valid, dt, (st.getLine s w).tag, d, rs⟩) s' t =
      lookup st s' t :=
  lookup_setLine_keep st s w _ s' t rfl rfl

-- ==========================================================================
-- Invariant preservation
-- ==========================================================================

theorem noDupTags_nil : noDupTags [] := by
  intro i j hi hj
  simp at hi

theorem noDupTags_getSet (st : CacheState) (h : cacheInv st) (s : Nat) :
    noDupTags (st.getSet s) := by
  unfold CacheState.getSet
  by_cases hs : s < st.cacheData.length
  · rw [List.getD_eq_getElem _ _ hs]
    exact h _ (List.getElem_mem hs)
  · rw [List.getD_eq_default _ _ (by omega)]
    exact noDupTags_nil

theorem noDupTags_set (set : List CacheLine) (w : Nat) (l : CacheLine)
    (h : noDupTags set)
    (hok : l.valid = true → ∀ i (hi : i < set.length), i ≠ w →
      (set.get ⟨i, hi⟩).valid = true → (set.get ⟨i, hi⟩).tag ≠ l.tag) :
    noDupTags (set.set w l) := by
  intro i j hi hj hne hvi hvj
  have hi' : i < set.length := by
    have := List.length_set set w l ▸ hi; omega
  have hj' : j < set.length := by
    have := List.length_set set w l ▸ hj; omega
  have geti : (set.set w l).get ⟨i, hi⟩ = if w = i then l else set.get ⟨i, hi'⟩ := by
    rw [List.get_eq_getElem, List.getElem_set]
    by_cases hwi : w = i
    · rw [if_pos hwi, if_pos hwi]
    · rw [if_neg hwi, if_neg hwi]; rfl
  have getj : (set.set w l).get ⟨j, hj⟩ = if w = j then l else set.get ⟨j, hj'⟩ := by
    rw [List.get_eq_getElem, List.getElem_set]
    by_cases hwj : w = j
    · rw [if_pos hwj, if_pos hwj]
    · rw [if_neg hwj, if_neg hwj]; rfl
  rw [geti] at hvi ⊢
  rw [getj] at hvj ⊢
  by_cases hwi : w = i
  · rw [if_pos hwi] at hvi ⊢
    by_cases hwj : w = j
    · omega
    · rw [if_neg hwj] at hvj ⊢
      intro heq
      exact hok hvi j hj' (by omega) hvj heq.symm
  · rw [if_neg hwi] at hvi ⊢
    by_cases hwj : w = j
    · rw [if_pos hwj] at hvj ⊢
      exact hok hvj i hi' (by omega) hvi
    · rw [if_neg hwj] at hvj ⊢
      exact h i j hi' hj' hne hvi hvj

theorem cacheInv_setLine (st : CacheState) (s w : Nat) (l : CacheLine)
    (h : cacheInv st)
    (hok : l.valid = true → ∀ i (hi : i < (st.getSet s).length), i ≠ w →
      ((st.getSet s).get ⟨i, hi⟩).valid = true →
      ((st.getSet s).get ⟨i, hi⟩).tag ≠ l.tag) :
    cacheInv (st.setLine s w l) := by
  intro set hset
  rcases List.mem_or_eq_of_mem_set hset with h2 | rfl
  · exact h set h2
  · exact noDupTags_set _ w l (noDupTags_getSet st h s) hok

/-- Updating a way without changing its `valid` flag or its tag preserves
the invariant. -/
theorem cacheInv_setLine_preserve (st : CacheState) (s w : Nat) (l : CacheLine)
    (h : cacheInv st)
    (hv : l.valid = (st.getLine s w).valid) (ht : l.tag = (st.getLine s w).tag) :
    cacheInv (st.setLine s w l) := by
  apply cacheInv_setLine st s w l h
  intro hval i hi hne hvi heq
  by_cases hw : w < (st.getSet s).length
  · have hgl : st.getLine s w = (st.getSet s).get ⟨w, hw⟩ := by
      rw [getLine_eq_getD, List.getD_eq_getElem _ _ hw]; rfl
    have hvw : ((st.getSet s).get ⟨w, hw⟩).valid = true := by
      rw [← hgl, ← hv]; exact hval
    have := noDupTags_getSet st h s i w hi hw hne hvi hvw
    apply this
    rw [heq, ht, hgl]
  · rw [getLine_eq_getD, List.getD_eq_default _ _ (by omega)] at hv
    rw [hval] at hv
    cases hv

/-- Installing an invalid line preserves the invariant. -/
theorem cacheInv_setLine_invalid (st : CacheState) (s w : Nat) (l : CacheLine)
    (h : cacheInv st) (hv : l.valid = false) :
    cacheInv (st.setLine s w l) := by
  apply cacheInv_setLine st s w l h
  intro hval
  rw [hval] at hv
  cases hv

/-- Installing a line whose tag is absent from the set preserves the
invariant. -/
theorem cacheInv_setLine_fresh (st : CacheState) (s w : Nat) (l : CacheLine)
    (h : cacheInv st) (hmiss : lookup st s l.tag = none) :
    cacheInv (st.setLine s w l) := by
  apply cacheInv_setLine st s w l h
  intro _ i hi hne hvi heq
  rw [lookup_eq_none_iff] at hmiss
  have hmem := List.get_mem (st.getSet s) i hi
  have := hmiss _ hmem
  rw [lineMatches, hvi, heq] at this
  simp at this

/-- `writeBackLine` either does nothing (clean or invalid line) or marks
the line clean and issues exactly one downstream write. -/
theorem writeBackLine_cases (c : CacheConfig) (st : CacheState) (s w : Nat) :
    (¬((st.getLine s w).valid = true ∧ (st.getLine s w).dirty = true) ∧
      writeBackLine c st s w = (st, []))
    ∨ (((st.getLine s w).valid = true ∧ (st.getLine s w).dirty = true) ∧
      writeBackLine c st s w =
        (st.setLine s w (markClean (st.getLine s w)),
          [BusEvent.busWrite (getLineBaseAddress c (st.getLine s w).tag s)
            c.offsetBits (st.getLine s w).data])) := by
  by_cases hg : (st.getLine s w).valid && (st.getLine s w).dirty
  · right
    refine ⟨by simpa using hg, ?_⟩
    simp only [writeBackLine]
    rw [if_pos hg]
  · left
    refine ⟨by simpa using hg, ?_⟩
    simp only [writeBackLine]
    rw [if_neg hg]

theorem cacheInv_writeBackLine (c : CacheConfig) (st : CacheState) (s w : Nat)
    (h : cacheInv st) : cacheInv (writeBackLine c st s w).1 := by
  rcases writeBackLine_cases c st s w with ⟨_, heq⟩ | ⟨_, heq⟩
  · rw [heq]; exact h
  · rw [heq]
    exact cacheInv_setLine_preserve st s w _ h rfl rfl

theorem lookup_writeBackLine (c : CacheConfig) (st : CacheState) (s w s' t : Nat) :
    lookup (writeBackLine c st s w).1 s' t = lookup st s' t := by
  rcases writeBackLine_cases c st s w with ⟨_, heq⟩ | ⟨_, heq⟩
  · rw [heq]
  · rw [heq]
    exact lookup_setLine_same_match st s w (markClean (st.getLine s w))
      (fun t => rfl) s' t

theorem cacheInv_installLine (st : CacheState) (s w tag data : Nat)
    (h : cacheInv st) (hmiss : lookup st s tag = none) :
    cacheInv (installLine st s w tag data) := by
  unfold installLine
  exact cacheInv_setLine_fresh st s w _ h hmiss

theorem cacheInv_updateReplaceState (st : CacheState) (s w : Nat)
    (h : cacheInv st) : cacheInv (updateReplaceState st s w) := by
  unfold updateReplaceState
  exact cacheInv_setLine_preserve st s w _ h rfl rfl

theorem cacheInv_invalidateAll (st : CacheState) : cacheInv (invalidateAll st) := by
  intro set hset
  unfold invalidateAll at hset
  simp only [List.mem_map] at hset
  rcases hset with ⟨old, _, rfl⟩
  intro i j hi hj hne hvi
  rw [List.get_eq_getElem, List.getElem_map] at hvi
  simp [invalidateLine] at hvi

theorem cacheInv_fetchLine (c : CacheConfig) (pol : ReplacementPolicy)
    (oracle : Oracle) (st : CacheState) (s t : Nat)
    (h : cacheInv st) (hmiss : lookup st s t = none) :
    cacheInv (fetchLine c pol oracle st s t).1 := by
  simp only [fetchLine]
  by_cases hwb : (allocate c pol st s).needsWriteback
  · rw [if_pos hwb]
    apply cacheInv_installLine _ _ _ _ _
      (cacheInv_writeBackLine c st s _ h)
    rw [lookup_writeBackLine]
    exact hmiss
  · rw [if_neg hwb]
    exact cacheInv_installLine _ _ _ _ _ h hmiss

theorem cacheInv_accessLine (c : CacheConfig) (pol : ReplacementPolicy)
    (oracle : Oracle) (st : CacheState) (s t : Nat) (h : cacheInv st) :
    cacheInv (accessLine c pol oracle st s t).1 := by
  unfold accessLine
  cases hres : lookup st s t with
  | some w => exact cacheInv_updateReplaceState st s w h
  | none => exact cacheInv_fetchLine c pol oracle st s t h hres

theorem cacheInv_zeroLine_hit (st : CacheState) (s w t : Nat) (h : cacheInv st)
    (hhit : lookup st s t = some w) : cacheInv (zeroLine st s w t) := by
  unfold zeroLine
  rcases (lookup_eq_some_iff st s t w).1 hhit with ⟨hw, hm, _⟩
  apply cacheInv_setLine_preserve st s w _ h
  · rw [lineMatches, Bool.and_eq_true] at hm
    exact hm.1.symm
  · rw [lineMatches, Bool.and_eq_true] at hm
    have := hm.2
    rw [beq_iff_eq] at this
    rw [getLine_eq_getD, this]

theorem cacheInv_zeroLine_miss (st : CacheState) (s w t : Nat) (h : cacheInv st)
    (hmiss : lookup st s t = none) : cacheInv (zeroLine st s w t) := by
  unfold zeroLine
  exact cacheInv_setLine_fresh st s w _ h hmiss

theorem cacheInv_cleanSweep (c : CacheConfig) :
    ∀ (entries : List DirtyEntry) (st : CacheState), cacheInv st →
      cacheInv (cleanSweep c st entries).1 := by
  intro entries
  induction entries with
  | nil => intro st h; exact h
  | cons e rest ih =>
    intro st h
    simp only [cleanSweep]
    exact ih _ (cacheInv_writeBackLine c st e.setIndex e.wayIndex h)

theorem cacheInv_flushSweep (c : CacheConfig) :
    ∀ (coords : List (Nat × Nat)) (st : CacheState), cacheInv st →
      cacheInv (flushSweep c st coords).1 := by
  intro coords
  induction coords with
  | nil => intro st h; exact h
  | cons sw rest ih =>
    intro st h
    rcases sw with ⟨s, w⟩
    simp only [flushSweep]
    apply ih
    apply cacheInv_setLine_invalid _ _ _ _
      (cacheInv_writeBackLine c st s w h) rfl

/-- Every request handler preserves the at-most-one-hit invariant. -/
theorem cacheInv_processTransaction (c : CacheConfig) (pol : ReplacementPolicy)
    (oracle : Oracle) (st : CacheState) (req : RequestPacket) (h : cacheInv st) :
    cacheInv (processTransaction c pol oracle st req).1 := by
  cases req with
  | read addr size =>
    simp only [processTransaction, handleRead]
    exact cacheInv_accessLine c pol oracle st _ _ h
  | write addr size value =>
    simp only [processTransaction, handleWrite]
    exact cacheInv_setLine_preserve _ _ _ _
      (cacheInv_accessLine c pol oracle st _ _ h) rfl rfl
  | inval addr global =>
    simp only [processTransaction, handleInvalidate]
    match addr, global with
    | some a, false =>
      simp only
      cases hres : lookup st (parseAddress c a).setIndex (parseAddress c a).tag with
      | some w =>
        simp only
        exact cacheInv_setLine_invalid _ _ _ _ h rfl
      | none => exact h
    | some a, true => exact cacheInv_invalidateAll st
    | none, g => exact cacheInv_invalidateAll st
  | clean addr global =>
    simp only [processTransaction, handleClean]
    match addr, global with
    | some a, false =>
      simp only
      cases hres : lookup st (parseAddress c a).setIndex (parseAddress c a).tag with
      | some w =>
        simp only
        exact cacheInv_writeBackLine c st _ w h
      | none => exact h
    | some a, true => exact cacheInv_cleanSweep c _ st h
    | none, g => exact cacheInv_cleanSweep c _ st h
  | flush addr global =>
    simp only [processTransaction, handleFlush]
    match addr, global with
    | some a, false =>
      simp only
      cases hres : lookup st (parseAddress c a).setIndex (parseAddress c a).tag with
      | some w =>
        simp only
        exact cacheInv_setLine_invalid _ _ _ _
          (cacheInv_writeBackLine c st _ w h) rfl
      | none => exact h
    | some a, true => exact cacheInv_flushSweep c _ st h
    | none, g => exact cacheInv_flushSweep c _ st h
  | zero addr =>
    simp only [processTransaction, handleZero]
    cases hres : lookup st (parseAddress c (addr &&& 0xff)).setIndex
        (parseAddress c (addr &&& 0xff)).tag with
    | some w =>
      simp only
      exact cacheInv_zeroLine_hit st _ w _ h hres
    | none =>
      simp only
      apply cacheInv_zeroLine_miss _ _ _ _
        (cacheInv_writeBackLine c st _ _ h)
      rw [lookup_writeBackLine]
      exact hres
  | prefetch addr =>
    simp only [processTransaction, handlePrefetch]
    exact cacheInv_accessLine c pol oracle st _ _ h
  | lineRead addr lineSize =>
    simp only [processTransaction, handleLineRead]
    exact cacheInv_accessLine c pol oracle st _ _ h
  | lineWrite addr lineSize data writeMask =>
    simp only [processTransaction, handleLineWrite]
    exact cacheInv_setLine_preserve _ _ _ _
      (cacheInv_accessLine c pol oracle st _ _ h) rfl rfl

theorem cacheInv_initState (c : CacheConfig) : cacheInv (initState c) := by
  intro set hset
  unfold initState at hset
  simp only [List.mem_replicate] at hset
  rw [hset.2]
  intro i j hi hj hne hvi
  rw [List.get_eq_getElem, List.getElem_replicate] at hvi
  simp [initLine] at hvi

-- ==========================================================================
-- Support lemmas for the request-level claims
-- ==========================================================================

theorem parse_setIndex_lt (c : CacheConfig) (a : Nat) :
    (parseAddress c a).setIndex < c.numSets := by
  unfold parseAddress CacheConfig.numSets
  by_cases hsb : c.setBits > 0
  · rw [if_pos hsb]
    simp only [if_pos hsb]
    have h1 : ((a &&& 0xff) >>> c.offsetBits) &&& ((1 <<< c.setBits) - 1) ≤
        (1 <<< c.setBits) - 1 := Nat.and_le_right
    have h2 : 0 < 1 <<< c.setBits := by
      rw [Nat.shiftLeft_eq, one_mul]
      exact Nat.pos_pow_of_pos _ (by omega)
    omega
  · rw [if_neg hsb]
    simp only [if_neg hsb]
    omega

theorem length_getSet_writeBackLine (c : CacheConfig) (st : CacheState)
    (s w t : Nat) :
    ((writeBackLine c st s w).1.getSet t).length = (st.getSet t).length := by
  rcases writeBackLine_cases c st s w with ⟨_, heq⟩ | ⟨_, heq⟩
  · rw [heq]
  · rw [heq]
    exact length_getSet_setLine st s w _ t

theorem lruCounter_writeBackLine (c : CacheConfig) (st : CacheState) (s w : Nat) :
    (writeBackLine c st s w).1.lruCounter = st.lruCounter := by
  rcases writeBackLine_cases c st s w with ⟨_, heq⟩ | ⟨_, heq⟩
  · rw [heq]
  · rw [heq]; rfl

/-- Writing a matching line into a set that had no match makes that way
the lookup result. -/
theorem lookup_setLine_of_miss (st : CacheState) (s w : Nat) (l : CacheLine)
    (t : Nat) (hw : w < (st.getSet s).length) (hl : lineMatches t l = true)
    (hmiss : lookup st s t = none) :
    lookup (st.setLine s w l) s t = some w := by
  rw [lookup_eq_some_iff]
  rw [lookup_eq_none_iff] at hmiss
  have hlen : ((st.setLine s w l).getSet s).length = (st.getSet s).length :=
    length_getSet_setLine st s w l s
  refine ⟨by omega, ?_, ?_⟩
  · rw [getSet_setLine, if_pos rfl, List.getD_eq_getElem?_getD,
      List.getElem?_set_self hw]
    exact hl
  · intro j hj
    rw [getSet_setLine, if_pos rfl, List.getD_eq_getElem?_getD,
      List.getElem?_set_ne (by omega), ← List.getD_eq_getElem?_getD]
    have hjlt : j < (st.getSet s).length := by omega
    rw [List.getD_eq_getElem _ _ hjlt]
    exact hmiss _ (List.getElem_mem hjlt)

theorem extractReadData_of_not_read (r : ResponsePacket)
    (h : isReadResponse r = false) : extractReadData r = 0 := by
  cases r <;> first | rfl | (rw [isReadResponse] at h; cases h)

/-- `st'` has the same data and tags as `st₀`, with possibly fewer lines
valid or dirty (the states reachable during a clean/flush sweep). -/
def linesWeaken (st₀ st' : CacheState) : Prop :=
  ∀ s w,
    (st'.getLine s w).data = (st₀.getLine s w).data ∧
    (st'.getLine s w).tag = (st₀.getLine s w).tag ∧
    ((st'.getLine s w).valid = true → (st₀.getLine s w).valid = true) ∧
    ((st'.getLine s w).dirty = true → (st₀.getLine s w).dirty = true)

theorem linesWeaken_refl (st : CacheState) : linesWeaken st st :=
  fun _ _ => ⟨rfl, rfl, id, id⟩

theorem linesWeaken_setLine (st₀ st' : CacheState) (h : linesWeaken st₀ st')
    (s w : Nat) (l : CacheLine)
    (hd : l.data = (st'.getLine s w).data) (ht : l.tag = (st'.getLine s w).tag)
    (hv : l.valid = true → (st'.getLine s w).valid = true)
    (hdi : l.dirty = true → (st'.getLine s w).dirty = true) :
    linesWeaken st₀ (st'.setLine s w l) := by
  intro s' w'
  rw [getLine_setLine]
  by_cases hc : s' = s ∧ w' = w ∧ w < (st'.getSet s).length
  · rw [if_pos hc]
    rcases hc with ⟨rfl, rfl, _⟩
    rcases h s' w' with ⟨h1, h2, h3, h4⟩
    exact ⟨hd.trans h1, ht.trans h2, fun hx => h3 (hv hx), fun hx => h4 (hdi hx)⟩
  · rw [if_neg hc]
    exact h s' w'

theorem linesWeaken_writeBackLine (c : CacheConfig) (st₀ st' : CacheState)
    (h : linesWeaken st₀ st') (s w : Nat) :
    linesWeaken st₀ (writeBackLine c st' s w).1 := by
  rcases writeBackLine_cases c st' s w with ⟨_, heq⟩ | ⟨_, heq⟩
  · rw [heq]; exact h
  · rw [heq]
    exact linesWeaken_setLine st₀ st' h s w _ rfl rfl (fun hx => hx)
      (fun hx => by rw [markClean] at hx; cases hx)

theorem mem_getDirtyLines (c : CacheConfig) (st : CacheState) (d : DirtyEntry) :
    d ∈ getDirtyLines c st ↔
      d.setIndex < c.numSets ∧ d.wayIndex < c.numWays ∧
      (st.getLine d.setIndex d.wayIndex).valid = true ∧
      (st.getLine d.setIndex d.wayIndex).dirty = true ∧
      d.line = st.getLine d.setIndex d.wayIndex ∧
      d.addr = getLineBaseAddress c (st.getLine d.setIndex d.wayIndex).tag d.setIndex := by
  unfold getDirtyLines
  rw [List.mem_flatMap]
  constructor
  · rintro ⟨s, hs, hmem⟩
    rw [List.mem_range] at hs
    rw [List.mem_filterMap] at hmem
    rcases hmem with ⟨w, hw, hsome⟩
    rw [List.mem_range] at hw
    by_cases hcond : (st.getLine s w).valid && (st.getLine s w).dirty
    · rw [if_pos hcond] at hsome
      rcases Option.some_injective _ hsome with rfl
      simp only [Bool.and_eq_true] at hcond
      exact ⟨hs, hw, hcond.1, hcond.2, rfl, rfl⟩
    · rw [if_neg hcond] at hsome
      cases hsome
  · rintro ⟨hs, hw, hv, hd, hline, haddr⟩
    refine ⟨d.setIndex, List.mem_range.2 hs, ?_⟩
    rw [List.mem_filterMap]
    refine ⟨d.wayIndex, List.mem_range.2 hw, ?_⟩
    rw [if_pos (by rw [hv, hd]; rfl)]
    cases d
    simp only at hline haddr
    rw [hline, haddr]

theorem cleanSweep_events_sub (c : CacheConfig) :
    ∀ (entries : List DirtyEntry) (st₀ st' : CacheState),
      linesWeaken st₀ st' →
      (∀ e ∈ entries, e.setIndex < c.numSets ∧ e.wayIndex < c.numWays) →
      ∀ ev ∈ (cleanSweep c st' entries).2,
        ∃ d ∈ getDirtyLines c st₀,
          ev = BusEvent.busWrite d.addr c.offsetBits d.line.data := by
  intro entries
  induction entries with
  | nil => intro st₀ st' _ _ ev hev; simp [cleanSweep] at hev
  | cons e rest ih =>
    intro st₀ st' hweak hrange ev hev
    simp only [cleanSweep, List.mem_append] at hev
    rcases hev with hev | hev
    · rcases writeBackLine_cases c st' e.setIndex e.wayIndex with ⟨_, heq⟩ | ⟨⟨hv, hd⟩, heq⟩
      · rw [heq] at hev; simp at hev
      · rw [heq] at hev
        simp only [List.mem_singleton] at hev
        rcases hweak e.setIndex e.wayIndex with ⟨h1, h2, h3, h4⟩
        refine ⟨⟨e.setIndex, e.wayIndex, st₀.getLine e.setIndex e.wayIndex,
          getLineBaseAddress c (st₀.getLine e.setIndex e.wayIndex).tag e.setIndex⟩,
          ?_, ?_⟩
        · rw [mem_getDirtyLines]
          exact ⟨(hrange e (List.mem_cons_self e rest)).1,
            (hrange e (List.mem_cons_self e rest)).2, h3 hv, h4 hd, rfl, rfl⟩
        · rw [hev, h2, h1]
    · exact ih st₀ _ (linesWeaken_writeBackLine c st₀ st' hweak _ _)
        (fun x hx => hrange x (List.mem_cons_of_mem e hx)) ev hev

theorem flushSweep_events_sub (c : CacheConfig) :
    ∀ (coords : List (Nat × Nat)) (st₀ st' : CacheState),
      linesWeaken st₀ st' →
      (∀ sw ∈ coords, sw.1 < c.numSets ∧ sw.2 < c.numWays) →
      ∀ ev ∈ (flushSweep c st' coords).2,
        ∃ d ∈ getDirtyLines c st₀,
          ev = BusEvent.busWrite d.addr c.offsetBits d.line.data := by
  intro coords
  induction coords with
  | nil => intro st₀ st' _ _ ev hev; simp [flushSweep] at hev
  | cons sw rest ih =>
    intro st₀ st' hweak hrange ev hev
    rcases sw with ⟨s, w⟩
    simp only [flushSweep, List.mem_append] at hev
    rcases hev with hev | hev
    · rcases writeBackLine_cases c st' s w with ⟨_, heq⟩ | ⟨⟨hv, hd⟩, heq⟩
      · rw [heq] at hev; simp at hev
      · rw [heq] at hev
        simp only [List.mem_singleton] at hev
        rcases hweak s w with ⟨h1, h2, h3, h4⟩
        refine ⟨⟨s, w, st₀.getLine s w,
          getLineBaseAddress c (st₀.getLine s w).tag s⟩, ?_, ?_⟩
        · rw [mem_getDirtyLines]
          exact ⟨(hrange (s, w) (List.mem_cons_self _ rest)).1,
            (hrange (s, w) (List.mem_cons_self _ rest)).2, h3 hv, h4 hd, rfl, rfl⟩
        · rw [hev, h2, h1]
    · apply ih st₀ _ ?_ (fun x hx => hrange x (List.mem_cons_of_mem _ hx)) ev hev
      apply linesWeaken_setLine
      · exact linesWeaken_writeBackLine c st₀ st' hweak s w
      · rfl
      · rfl
      · intro hx; rw [invalidateLine] at hx; cases hx
      · intro hx; rw [invalidateLine] at hx; cases hx

theorem mem_allCoords (c : CacheConfig) (sw : Nat × Nat) :
    sw ∈ allCoords c ↔ sw.1 < c.numSets ∧ sw.2 < c.numWays := by
  unfold allCoords
  rw [List.mem_flatMap]
  constructor
  · rintro ⟨s, hs, hmem⟩
    rw [List.mem_range] at hs
    rw [List.mem_map] at hmem
    rcases hmem with ⟨w, hw, rfl⟩
    rw [List.mem_range] at hw
    exact ⟨hs, hw⟩
  · rintro ⟨hs, hw⟩
    refine ⟨sw.1, List.mem_range.2 hs, ?_⟩
    rw [List.mem_map]
    exact ⟨sw.2, List.mem_range.2 hw, rfl⟩

theorem length_getSet_installLine (st : CacheState) (s w tag data t : Nat) :
    ((installLine st s w tag data).getSet t).length = (st.getSet t).length := by
  show ((st.setLine s w _).getSet t).length = _
  exact length_getSet_setLine st s w _ t

theorem length_getSet_updateReplaceState (st : CacheState) (s w t : Nat) :
    ((updateReplaceState st s w).getSet t).length = (st.getSet t).length := by
  show (((st.setLine s w _).getSet t)).length = _
  exact length_getSet_setLine st s w _ t

theorem lookup_updateReplaceState (st : CacheState) (s w s' t : Nat) :
    lookup (updateReplaceState st s w) s' t = lookup st s' t := by
  show lookup (st.setLine s w _) s' t = _
  rw [lookup_setLine_mkKeep]

theorem getLine_updateReplaceState_data (st : CacheState) (s w : Nat) :
    ((updateReplaceState st s w).getLine s w).data = (st.getLine s w).data := by
  show ((st.setLine s w _).getLine s w).data = _
  rw [getLine_setLine]
  by_cases hc : s = s ∧ w = w ∧ w < (st.getSet s).length
  · rw [if_pos hc]
  · rw [if_neg hc]

theorem wf_getSet_length (c : CacheConfig) (st : CacheState) (hwf : wfState c st)
    (s : Nat) (hs : s < c.numSets) : (st.getSet s).length = c.numWays := by
  rcases hwf with ⟨hlen, hsets⟩
  unfold CacheState.getSet
  have hs2 : s < st.cacheData.length := by omega
  rw [List.getD_eq_getElem _ _ hs2]
  exact hsets _ (List.getElem_mem hs2)

/-- After a write request the written value sits in a line that the next
lookup of the same address finds. -/
theorem handleWrite_lookup_data (c : CacheConfig) (pol : ReplacementPolicy)
    (oracle : Oracle) (st : CacheState) (A S V : Nat)
    (hwf : wfState c st) (hW : 1 ≤ c.numWays)
    (hpol : ∀ set, set ≠ [] → pol set < set.length) :
    ∃ w d₀,
      lookup (handleWrite c pol oracle st A S V).1
        (parseAddress c (A &&& 0xff)).setIndex (parseAddress c (A &&& 0xff)).tag
        = some w ∧
      ((handleWrite c pol oracle st A S V).1.getLine
        (parseAddress c (A &&& 0xff)).setIndex w).data =
        writeBytesToLine d₀ (parseAddress c (A &&& 0xff)).offset V
          (getSizeInBytes S) := by
  have hs : (parseAddress c (A &&& 0xff)).setIndex < c.numSets :=
    parse_setIndex_lt c (A &&& 0xff)
  have hlen : (st.getSet (parseAddress c (A &&& 0xff)).setIndex).length = c.numWays :=
    wf_getSet_length c st hwf _ hs
  simp only [handleWrite, accessLine]
  cases hres : lookup st (parseAddress c (A &&& 0xff)).setIndex
      (parseAddress c (A &&& 0xff)).tag with
  | some w =>
    simp only
    set s := (parseAddress c (A &&& 0xff)).setIndex
    set t := (parseAddress c (A &&& 0xff)).tag
    have hwlt : w < (st.getSet s).length :=
      ((lookup_eq_some_iff st s t w).1 hres).1
    have hwlt2 : w < ((updateReplaceState st s w).getSet s).length := by
      rw [length_getSet_updateReplaceState]; exact hwlt
    refine ⟨w, ((updateReplaceState st s w).getLine s w).data, ?_, ?_⟩
    · rw [lookup_setLine_mkKeep, lookup_updateReplaceState]
      exact hres
    · rw [getLine_setLine, if_pos ⟨rfl, rfl, hwlt2⟩]
  | none =>
    simp only [fetchLine]
    set s := (parseAddress c (A &&& 0xff)).setIndex
    set t := (parseAddress c (A &&& 0xff)).tag
    set v := (allocate c pol st s).victimIndex with hv
    have hvlt : v < (st.getSet s).length := by
      rw [hv]
      apply hpol
      intro hnil
      rw [hnil] at hlen
      simp at hlen
      omega
    set wb := if (allocate c pol st s).needsWriteback
      then writeBackLine c st s v else (st, []) with hwbdef
    have hwblen : (wb.1.getSet s).length = (st.getSet s).length := by
      rw [hwbdef]
      by_cases hnw : (allocate c pol st s).needsWriteback
      · rw [if_pos hnw]; exact length_getSet_writeBackLine c st s v s
      · rw [if_neg hnw]
    have hwbmiss : lookup wb.1 s t = none := by
      rw [hwbdef]
      by_cases hnw : (allocate c pol st s).needsWriteback
      · rw [if_pos hnw, lookup_writeBackLine]; exact hres
      · rw [if_neg hnw]; exact hres
    set d0 := extractReadData (oracle (RequestPacket.read
      (getLineBaseAddress c t s) c.offsetBits)) with hd0
    have hinstlookup : lookup (installLine wb.1 s v t d0) s t = some v := by
      show lookup (wb.1.setLine s v _) s t = some v
      apply lookup_setLine_of_miss
      · omega
      · simp [lineMatches]
      · exact hwbmiss
    have hinstlen : ((installLine wb.1 s v t d0).getSet s).length =
        (st.getSet s).length := by
      show ((wb.1.setLine s v _).getSet s).length = _
      rw [length_getSet_setLine]
      exact hwblen
    refine ⟨v, ((installLine wb.1 s v t d0).getLine s v).data, ?_, ?_⟩
    · rw [lookup_setLine_mkKeep]
      exact hinstlookup
    · rw [getLine_setLine, if_pos ⟨rfl, rfl, by omega⟩]

/-- On a hit the read handler returns the bytes of the hit line at the
parsed offset. -/
theorem handleRead_of_hit (c : CacheConfig) (pol : ReplacementPolicy)
    (oracle : Oracle) (st : CacheState) (A S w : Nat)
    (hhit : lookup st (parseAddress c (A &&& 0xff)).setIndex
      (parseAddress c (A &&& 0xff)).tag = some w) :
    (handleRead c pol oracle st A S).2.2 =
      ResponsePacket.read (A &&& 0xff) S
        (readBytesFromLine
          (st.getLine (parseAddress c (A &&& 0xff)).setIndex w).data
          (parseAddress c (A &&& 0xff)).offset (getSizeInBytes S)) := by
  simp only [handleRead, accessLine, hhit]
  rw [getLine_updateReplaceState_data]

/-- Trace of a miss with a valid-and-dirty victim: downstream write of
the victim, then downstream read of the new line, then installation. -/
theorem accessLine_miss_dirty_trace (c : CacheConfig) (pol : ReplacementPolicy)
    (oracle : Oracle) (st : CacheState) (s t : Nat)
    (hmiss : lookup st s t = none)
    (hv : (st.getLine s (pol (st.getSet s))).valid = true)
    (hd : (st.getLine s (pol (st.getSet s))).dirty = true) :
    (accessLine c pol oracle st s t).2.1 =
      [BusEvent.busWrite
          (getLineBaseAddress c (st.getLine s (pol (st.getSet s))).tag s)
          c.offsetBits (st.getLine s (pol (st.getSet s))).data,
        BusEvent.busRead (getLineBaseAddress c t s) c.offsetBits,
        BusEvent.install s (pol (st.getSet s)) t
          (extractReadData (oracle (RequestPacket.read
            (getLineBaseAddress c t s) c.offsetBits)))] := by
  simp only [accessLine, hmiss, fetchLine, allocate]
  rw [← getLine_eq_getD, hv, hd]
  have htt : (true && true) = true := rfl
  rw [if_pos htt]
  rcases writeBackLine_cases c st s (pol (st.getSet s)) with ⟨hng, _⟩ | ⟨_, heq⟩
  · exact absurd ⟨hv, hd⟩ hng
  · rw [heq]
    rfl

/-- Trace of a miss whose victim needs no writeback: downstream read,
then installation — no downstream write. -/
theorem accessLine_miss_clean_trace (c : CacheConfig) (pol : ReplacementPolicy)
    (oracle : Oracle) (st : CacheState) (s t : Nat)
    (hmiss : lookup st s t = none)
    (hnd : ¬((st.getLine s (pol (st.getSet s))).valid = true ∧
      (st.getLine s (pol (st.getSet s))).dirty = true)) :
    (accessLine c pol oracle st s t).2.1 =
      [BusEvent.busRead (getLineBaseAddress c t s) c.offsetBits,
        BusEvent.install s (pol (st.getSet s)) t
          (extractReadData (oracle (RequestPacket.read
            (getLineBaseAddress c t s) c.offsetBits)))] := by
  simp only [accessLine, hmiss, fetchLine, allocate]
  rw [← getLine_eq_getD]
  have hguard : ((st.getLine s (pol (st.getSet s))).valid &&
      (st.getLine s (pol (st.getSet s))).dirty) = false := by
    cases hx : (st.getLine s (pol (st.getSet s))).valid with
    | false => rfl
    | true =>
      cases hy : (st.getLine s (pol (st.getSet s))).dirty with
      | false => rfl
      | true => exact absurd ⟨hx, hy⟩ hnd
  rw [hguard, if_neg (by simp)]
  rfl

/-- The line installed by a miss fetch: valid, clean, new tag, the data
from the downstream response (zero on a non-read response), stamped with
the next clock value. -/
theorem fetchLine_install_line (c : CacheConfig) (pol : ReplacementPolicy)
    (oracle : Oracle) (st : CacheState) (s t : Nat)
    (hvlt : pol (st.getSet s) < (st.getSet s).length) :
    (fetchLine c pol oracle st s t).1.getLine s (fetchLine c pol oracle st s t).2.2 =
      ⟨true, false, t,
        extractReadData (oracle (RequestPacket.read
          (getLineBaseAddress c t s) c.offsetBits)),
        st.lruCounter + 1⟩ := by
  simp only [fetchLine, allocate]
  by_cases hnw : ((st.getSet s).getD (pol (st.getSet s)) initLine).valid &&
      ((st.getSet s).getD (pol (st.getSet s)) initLine).dirty
  · rw [if_pos hnw]
    show ((writeBackLine c st s (pol (st.getSet s))).1.setLine s (pol (st.getSet s))
        _).getLine s (pol (st.getSet s)) = _
    rw [getLine_setLine, if_pos ⟨rfl, rfl, by
      rw [length_getSet_writeBackLine]; exact hvlt⟩]
    rw [lruCounter_writeBackLine]
  · rw [if_neg hnw]
    show (st.setLine s (pol (st.getSet s)) _).getLine s (pol (st.getSet s)) = _
    rw [getLine_setLine, if_pos ⟨rfl, rfl, hvlt⟩]

/-- A write to a hit line leaves that way dirty. -/
theorem handleWrite_dirty_hit (c : CacheConfig) (pol : ReplacementPolicy)
    (oracle : Oracle) (st : CacheState) (A S V w : Nat)
    (hhit : lookup st (parseAddress c (A &&& 0xff)).setIndex
      (parseAddress c (A &&& 0xff)).tag = some w) :
    ((handleWrite c pol oracle st A S V).1.getLine
      (parseAddress c (A &&& 0xff)).setIndex w).dirty = true := by
  simp only [handleWrite, accessLine, hhit]
  set s := (parseAddress c (A &&& 0xff)).setIndex
  set t := (parseAddress c (A &&& 0xff)).tag
  have hwlt : w < (st.getSet s).length :=
    ((lookup_eq_some_iff st s t w).1 hhit).1
  rw [getLine_setLine, if_pos ⟨rfl, rfl, by
    rw [length_getSet_updateReplaceState]; exact hwlt⟩]

/-- A write that misses leaves the victim way dirty. -/
theorem handleWrite_dirty_miss (c : CacheConfig) (pol : ReplacementPolicy)
    (oracle : Oracle) (st : CacheState) (A S V : Nat)
    (hmiss : lookup st (parseAddress c (A &&& 0xff)).setIndex
      (parseAddress c (A &&& 0xff)).tag = none)
    (hvlt : pol (st.getSet (parseAddress c (A &&& 0xff)).setIndex) <
      (st.getSet (parseAddress c (A &&& 0xff)).setIndex).length) :
    ((handleWrite c pol oracle st A S V).1.getLine
      (parseAddress c (A &&& 0xff)).setIndex
      (pol (st.getSet (parseAddress c (A &&& 0xff)).setIndex))).dirty = true := by
  simp only [handleWrite, accessLine, hmiss, fetchLine, allocate]
  set s := (parseAddress c (A &&& 0xff)).setIndex
  set v := pol (st.getSet s)
  by_cases hnw : ((st.getSet s).getD v initLine).valid &&
      ((st.getSet s).getD v initLine).dirty
  · rw [if_pos hnw]
    rw [getLine_setLine, if_pos ⟨rfl, rfl, by
      rw [length_getSet_installLine, length_getSet_writeBackLine]; exact hvlt⟩]
  · rw [if_neg hnw]
    rw [getLine_setLine, if_pos ⟨rfl, rfl, by
      rw [length_getSet_installLine]; exact hvlt⟩]

theorem processAll_cacheInv_of (c : CacheConfig) (pol : ReplacementPolicy) :
    ∀ (reqs : List (RequestPacket × Oracle)) (st : CacheState), cacheInv st →
      cacheInv (processAll c pol st reqs) := by
  intro reqs
  induction reqs with
  | nil => intro st h; exact h
  | cons ro rest ih =>
    intro st h
    rcases ro with ⟨req, oracle⟩
    exact ih _ (cacheInv_processTransaction c pol oracle st req h)

-- ==========================================================================
-- Claims
-- ==========================================================================

/-- C2: starting from the initial state in which every line is invalid,
after any sequence of processed requests no set of the cache contains two
valid ways with the same tag. -/
theorem at_most_one_hit_invariant (c : CacheConfig) (pol : ReplacementPolicy)
    (reqs : List (RequestPacket × Oracle)) :
    cacheInv (processAll c pol (initState c) reqs) :=
  processAll_cacheInv_of c pol reqs (initState c) (cacheInv_initState c)

set_option maxRecDepth 10000 in
/-- C4: for every 8-bit address and every geometry with
`offsetBits + setBits ≤ 8`, recombining the parsed components —
`getLineBaseAddress(tag, setIndex)` bitwise-or the parsed offset — yields
the original address masked to 8 bits. -/
theorem address_roundtrip (ob sb ways addr : Nat) (ha : addr < 256)
    (hb : ob + sb ≤ 8) :
    (getLineBaseAddress ⟨ob, sb, ways⟩ (parseAddress ⟨ob, sb, ways⟩ addr).tag
        (parseAddress ⟨ob, sb, ways⟩ addr).setIndex) |||
      (parseAddress ⟨ob, sb, ways⟩ addr).offset = addr &&& 0xff := by
  have hcore : ∀ a, a < 256 → ∀ o, o < 9 → ∀ s, s < 9 → o + s ≤ 8 →
      ((getLineBaseAddress ⟨o, s, 1⟩ (parseAddress ⟨o, s, 1⟩ a).tag
          (parseAddress ⟨o, s, 1⟩ a).setIndex) |||
        (parseAddress ⟨o, s, 1⟩ a).offset) = a &&& 0xff := by decide
  exact hcore addr ha ob (by omega) sb (by omega) hb

theorem address_roundtrip_witness :
    (getLineBaseAddress ⟨2, 2, 2⟩ (parseAddress ⟨2, 2, 2⟩ 0xAB).tag
        (parseAddress ⟨2, 2, 2⟩ 0xAB).setIndex) |||
      (parseAddress ⟨2, 2, 2⟩ 0xAB).offset = 0xAB &&& 0xff :=
  address_roundtrip 2 2 2 0xAB (by decide) (by decide)

/-- C5: for every non-empty array of ways, the default replacement policy
returns the index of the first invalid way when any way is invalid, and
otherwise the index of the way with the smallest `replaceState`, ties
broken by the lowest index. -/
theorem lru_policy_spec (ways : List CacheLine) (hne : ways ≠ []) :
    ((∃ w ∈ ways, w.valid = false) →
      LRU_POLICY ways = ways.findIdx (fun w => !w.valid))
  ∧ ((∀ w ∈ ways, w.valid = true) →
      LRU_POLICY ways < ways.length ∧
      (∀ k, k < ways.length →
        (ways.getD (LRU_POLICY ways) initLine).replaceState ≤
          (ways.getD k initLine).replaceState) ∧
      (∀ k, k < ways.length → k < LRU_POLICY ways →
        (ways.getD (LRU_POLICY ways) initLine).replaceState <
          (ways.getD k initLine).replaceState)) := by
  constructor
  · intro hex
    show lruGo ways 0 0 none = _
    rw [lruGo_first_invalid ways 0 0 none hex, Nat.zero_add]
  · intro hval
    have hlen : 0 < ways.length := by
      cases ways with
      | nil => exact absurd rfl hne
      | cons a l => simp
    rcases lruGo_all_valid ways hval 0 0 none with ⟨_, hall⟩ | hex
    · exfalso
      have := hall 0 hlen
      rw [beats] at this
      cases this
    · rcases hex with ⟨kr, hkr, heq, _, hmin, hfirst⟩
      have hres : LRU_POLICY ways = kr := by
        show lruGo ways 0 0 none = kr
        rw [heq, Nat.zero_add]
      rw [hres]
      exact ⟨hkr, fun k hk => hmin k hk rfl, fun k hk hklt => hfirst k hk hklt rfl⟩

theorem lru_policy_spec_witness :
    LRU_POLICY [⟨true, false, 0, 0, 3⟩, initLine] =
      [⟨true, false, 0, 0, 3⟩, initLine].findIdx (fun w => !w.valid) :=
  (lru_policy_spec [⟨true, false, 0, 0, 3⟩, initLine] (by decide)).1
    ⟨initLine, by decide, by decide⟩

/-- C6 counterexample: with `old = 256` — data wider than the one-byte
line — a full write mask does not return `new`'s lower byte (the claim
predicts `0`, the code keeps `old`'s high bits and yields `256`). -/
theorem applyWriteMask_full_counterexample :
    applyWriteMask 256 0 (generateFullMask 1) 1 ≠ 0 % 2 ^ (1 * 8) := by
  intro h
  have h8 := congrArg (fun x => Nat.testBit x 8) h
  simp only [testBit_applyWriteMask] at h8
  rw [if_neg (by omega)] at h8
  have h256 : (256 : Nat).testBit 8 = true := by
    rw [show (256 : Nat) = 2 ^ 8 by norm_num]
    exact Nat.testBit_two_pow_self
  rw [h256, Nat.zero_mod, Nat.zero_testBit] at h8
  cases h8

/-- C6 (amended): `applyWriteMask(old, new, mask, n)` composes per byte
over the line's `n` bytes: for `i < n`, byte `i` of the result is taken
from `new` iff bit `i` of `mask` is set, else from `old`; mask `0`
returns `old` unchanged; an all-ones mask returns `new`'s lower `n`
bytes provided `old` fits in `n` bytes; and applying the same
`(new, mask)` twice equals applying it once. -/
theorem applyWriteMask_byte_composition (o nw m n : Nat) :
    (∀ i, i < n → readByteFromLine (applyWriteMask o nw m n) i =
      if (m >>> i) &&& 1 = 1 then readByteFromLine nw i
      else readByteFromLine o i)
  ∧ applyWriteMask o nw 0 n = o
  ∧ (o < 2 ^ (n * 8) →
      applyWriteMask o nw (generateFullMask n) n = nw % 2 ^ (n * 8))
  ∧ applyWriteMask (applyWriteMask o nw m n) nw m n = applyWriteMask o nw m n :=
  ⟨fun i hi => readByte_applyWriteMask o nw m n i hi,
    applyWriteMask_zero_mask o nw n,
    fun h => applyWriteMask_full_mask o nw n h,
    applyWriteMask_idem o nw m n⟩

theorem applyWriteMask_byte_composition_witness :
    readByteFromLine (applyWriteMask 0xAABBCCDD 0xFF 1 4) 0 = readByteFromLine 0xFF 0
  ∧ applyWriteMask 0xAABBCCDD 0xFF (generateFullMask 4) 4 = 0xFF % 2 ^ (4 * 8) := by
  constructor
  · have h3 := (applyWriteMask_byte_composition 0xAABBCCDD 0xFF 1 4).1 0 (by decide)
    rwa [if_pos (by decide)] at h3
  · exact (applyWriteMask_byte_composition 0xAABBCCDD 0xFF
      (generateFullMask 4) 4).2.2.1 (by decide)

/-- C8: if, during a miss fetch, the downstream bus returns a response
whose kind is not a read response, the controller substitutes zero for
the fetched line data and still installs the line — valid, clean, with
the new tag and data `0` — rather than raising an error. -/
theorem fetch_mismatch_installs_zero (c : CacheConfig) (pol : ReplacementPolicy)
    (oracle : Oracle) (st : CacheState) (s t : Nat)
    (hresp : isReadResponse (oracle (RequestPacket.read
      (getLineBaseAddress c t s) c.offsetBits)) = false)
    (hvlt : pol (st.getSet s) < (st.getSet s).length) :
    (fetchLine c pol oracle st s t).1.getLine s
        (fetchLine c pol oracle st s t).2.2 =
      ⟨true, false, t, 0, st.lruCounter + 1⟩ := by
  rw [fetchLine_install_line c pol oracle st s t hvlt,
    extractReadData_of_not_read _ hresp]

theorem fetch_mismatch_installs_zero_witness :
    (fetchLine ⟨1, 0, 1⟩ LRU_POLICY (fun _ => ResponsePacket.inval true)
        (initState ⟨1, 0, 1⟩) 0 13).1.getLine 0
      (fetchLine ⟨1, 0, 1⟩ LRU_POLICY (fun _ => ResponsePacket.inval true)
        (initState ⟨1, 0, 1⟩) 0 13).2.2 = ⟨true, false, 13, 0, 0 + 1⟩ :=
  fetch_mismatch_installs_zero ⟨1, 0, 1⟩ LRU_POLICY
    (fun _ => ResponsePacket.inval true) (initState ⟨1, 0, 1⟩) 0 13
    (by decide) (by decide)

/-- C9: an addressed (non-global) inval, clean, or flush request whose
address is not resident completes with a normal success response, leaves
every cache line (and the clock) unchanged, and issues no downstream
transaction. -/
theorem management_miss_is_noop (c : CacheConfig) (pol : ReplacementPolicy)
    (oracle : Oracle) (st : CacheState) (A : Nat)
    (hmiss : lookup st (parseAddress c A).setIndex (parseAddress c A).tag = none) :
    processTransaction c pol oracle st (RequestPacket.inval (some A) false) =
      (st, [], ResponsePacket.inval true)
  ∧ processTransaction c pol oracle st (RequestPacket.clean (some A) false) =
      (st, [], ResponsePacket.clean true)
  ∧ processTransaction c pol oracle st (RequestPacket.flush (some A) false) =
      (st, [], ResponsePacket.flush true) := by
  refine ⟨?_, ?_, ?_⟩
  · simp only [processTransaction, handleInvalidate, hmiss]
  · simp only [processTransaction, handleClean, hmiss]
  · simp only [processTransaction, handleFlush, hmiss]

theorem management_miss_is_noop_witness :
    processTransaction ⟨1, 0, 1⟩ LRU_POLICY (fun _ => ResponsePacket.inval true)
        (initState ⟨1, 0, 1⟩) (RequestPacket.inval (some 0x1A) false) =
      (initState ⟨1, 0, 1⟩, [], ResponsePacket.inval true) :=
  (management_miss_is_noop ⟨1, 0, 1⟩ LRU_POLICY
    (fun _ => ResponsePacket.inval true) (initState ⟨1, 0, 1⟩) 0x1A (by decide)).1

/-- C10: every inval, clean, or flush request — global or addressed, hit
or miss — returns a response whose `success` field is `true`; the flag
never distinguishes a management miss from a hit. -/
theorem management_success_always_true (c : CacheConfig)
    (pol : ReplacementPolicy) (oracle : Oracle) (st : CacheState)
    (a : Option Nat) (g : Bool) :
    (processTransaction c pol oracle st (RequestPacket.inval a g)).2.2 =
      ResponsePacket.inval true
  ∧ (processTransaction c pol oracle st (RequestPacket.clean a g)).2.2 =
      ResponsePacket.clean true
  ∧ (processTransaction c pol oracle st (RequestPacket.flush a g)).2.2 =
      ResponsePacket.flush true := by
  refine ⟨?_, ?_, ?_⟩
  · cases a with
    | none => cases g <;> rfl
    | some A =>
      cases g with
      | true => rfl
      | false =>
        cases hres : lookup st (parseAddress c A).setIndex (parseAddress c A).tag with
        | some w => simp only [processTransaction, handleInvalidate, hres]
        | none => simp only [processTransaction, handleInvalidate, hres]
  · cases a with
    | none => cases g <;> rfl
    | some A =>
      cases g with
      | true => rfl
      | false =>
        cases hres : lookup st (parseAddress c A).setIndex (parseAddress c A).tag with
        | some w => simp only [processTransaction, handleClean, hres]
        | none => simp only [processTransaction, handleClean, hres]
  · cases a with
    | none => cases g <;> rfl
    | some A =>
      cases g with
      | true => rfl
      | false =>
        cases hres : lookup st (parseAddress c A).setIndex (parseAddress c A).tag with
        | some w => simp only [processTransaction, handleFlush, hres]
        | none => simp only [processTransaction, handleFlush, hres]

/-- The default policy always picks an in-range victim on a non-empty
set. -/
theorem LRU_POLICY_in_range (ways : List CacheLine) (hne : ways ≠ []) :
    LRU_POLICY ways < ways.length := by
  have hlen : 0 < ways.length := by
    cases ways with
    | nil => exact absurd rfl hne
    | cons a l => simp
  by_cases hex : ∃ w ∈ ways, w.valid = false
  · show lruGo ways 0 0 none < _
    rw [lruGo_first_invalid ways 0 0 none hex, Nat.zero_add]
    apply List.findIdx_lt_length_of_exists
    rcases hex with ⟨w, hw, hv⟩
    exact ⟨w, hw, by simp [hv]⟩
  · have hval : ∀ w ∈ ways, w.valid = true := by
      intro w hw
      by_contra hc
      exact hex ⟨w, hw, by simpa using hc⟩
    rcases lruGo_all_valid ways hval 0 0 none with ⟨_, hall⟩ | ⟨kr, hkr, heq, _⟩
    · exfalso
      have := hall 0 hlen
      rw [beats] at this
      cases this
    · show lruGo ways 0 0 none < _
      rw [heq, Nat.zero_add]
      exact hkr

/-- A completed writeback leaves the written-back line clean. -/
theorem writeBackLine_clears_dirty (c : CacheConfig) (st : CacheState)
    (s w : Nat) (hv : (st.getLine s w).valid = true)
    (hd : (st.getLine s w).dirty = true) :
    ((writeBackLine c st s w).1.getLine s w).dirty = false := by
  have hwlt : w < (st.getSet s).length := by
    by_contra hc
    rw [getLine_eq_getD, List.getD_eq_default _ _ (by omega)] at hv
    cases hv
  rcases writeBackLine_cases c st s w with ⟨hng, _⟩ | ⟨_, heq⟩
  · exact absurd ⟨hv, hd⟩ hng
  · rw [heq]
    rw [getLine_setLine, if_pos ⟨rfl, rfl, hwlt⟩]
    rfl

/-- C1: for every read, write, prefetch, line-read, or line-write request
that misses and whose selected victim line is valid and dirty, the
transaction's action sequence is exactly: the downstream write carrying
the victim's data to the victim's base address, strictly before the
downstream read that fetches the new line, which precedes installation
of the new tag's data in that way. -/
theorem writeback_precedes_fetch (c : CacheConfig) (pol : ReplacementPolicy)
    (oracle : Oracle) (st : CacheState)
    (addr size value lineSize data writeMask : Nat)
    (p : AddressParts) (hp : p = parseAddress c (addr &&& 0xff))
    (v : Nat) (hvic : v = pol (st.getSet p.setIndex))
    (hmiss : lookup st p.setIndex p.tag = none)
    (hvalid : (st.getLine p.setIndex v).valid = true)
    (hdirty : (st.getLine p.setIndex v).dirty = true) :
    ∀ req ∈ [RequestPacket.read addr size,
      RequestPacket.write addr size value,
      RequestPacket.prefetch addr,
      RequestPacket.lineRead addr lineSize,
      RequestPacket.lineWrite addr lineSize data writeMask],
      (processTransaction c pol oracle st req).2.1 =
        [BusEvent.busWrite
            (getLineBaseAddress c (st.getLine p.setIndex v).tag p.setIndex)
            c.offsetBits (st.getLine p.setIndex v).data,
          BusEvent.busRead (getLineBaseAddress c p.tag p.setIndex) c.offsetBits,
          BusEvent.install p.setIndex v p.tag
            (extractReadData (oracle (RequestPacket.read
              (getLineBaseAddress c p.tag p.setIndex) c.offsetBits)))] := by
  subst hp
  subst hvic
  intro req hreq
  simp only [List.mem_cons, List.not_mem_nil, or_false] at hreq
  rcases hreq with rfl | rfl | rfl | rfl | rfl
  · exact accessLine_miss_dirty_trace c pol oracle st _ _ hmiss hvalid hdirty
  · exact accessLine_miss_dirty_trace c pol oracle st _ _ hmiss hvalid hdirty
  · exact accessLine_miss_dirty_trace c pol oracle st _ _ hmiss hvalid hdirty
  · exact accessLine_miss_dirty_trace c pol oracle st _ _ hmiss hvalid hdirty
  · exact accessLine_miss_dirty_trace c pol oracle st _ _ hmiss hvalid hdirty

theorem writeback_precedes_fetch_witness :
    (processTransaction ⟨1, 0, 1⟩ LRU_POLICY
        (fun _ => ResponsePacket.read 0 0 0)
        ⟨[[⟨true, true, 13, 0x12, 1⟩]], 1⟩ (RequestPacket.read 8 0)).2.1 =
      [BusEvent.busWrite 26 1 0x12, BusEvent.busRead 8 1,
        BusEvent.install 0 0 4 0] := by
  have h := writeback_precedes_fetch ⟨1, 0, 1⟩ LRU_POLICY
    (fun _ => ResponsePacket.read 0 0 0) ⟨[[⟨true, true, 13, 0x12, 1⟩]], 1⟩
    8 0 0 0 0 0 (parseAddress ⟨1, 0, 1⟩ (8 &&& 0xff)) rfl
    (LRU_POLICY (CacheState.getSet ⟨[[⟨true, true, 13, 0x12, 1⟩]], 1⟩
      (parseAddress ⟨1, 0, 1⟩ (8 &&& 0xff)).setIndex)) rfl
    (by decide) (by decide) (by decide)
    (RequestPacket.read 8 0) (by simp)
  exact h.trans (by decide)

/-- C3: processing a write of value `V` with size class `S ≤ 3` at
address `A` and then a read of size `S` at `A`, with no intervening
request, returns a read response whose value is exactly `V` masked to
`2^S` bytes.  The store is well formed and the policy picks in-range
victims, as the controller's constructor and default policy guarantee. -/
theorem write_then_read_returns_value (c : CacheConfig)
    (pol : ReplacementPolicy) (oracle₁ oracle₂ : Oracle) (st : CacheState)
    (A S V : Nat) (hwf : wfState c st) (hW : 1 ≤ c.numWays)
    (hpol : ∀ set, set ≠ [] → pol set < set.length) (hS : S ≤ 3) :
    (processTransaction c pol oracle₂
      (processTransaction c pol oracle₁ st (RequestPacket.write A S V)).1
      (RequestPacket.read A S)).2.2 =
      ResponsePacket.read (A &&& 0xff) S (maskToSize V S) := by
  obtain ⟨w, d₀, hlook, hdata⟩ :=
    handleWrite_lookup_data c pol oracle₁ st A S V hwf hW hpol
  show (handleRead c pol oracle₂ (handleWrite c pol oracle₁ st A S V).1 A S).2.2 = _
  rw [handleRead_of_hit c pol oracle₂ _ A S w hlook, hdata, readBytes_writeBytes,
    maskToSize_eq_mod]

theorem write_then_read_returns_value_witness :
    (processTransaction ⟨1, 0, 1⟩ LRU_POLICY
      (fun _ => ResponsePacket.read 0 0 0)
      (processTransaction ⟨1, 0, 1⟩ LRU_POLICY
        (fun _ => ResponsePacket.read 0 0 0)
        (initState ⟨1, 0, 1⟩) (RequestPacket.write 0x1A 0 0x12)).1
      (RequestPacket.read 0x1A 0)).2.2 =
      ResponsePacket.read (0x1A &&& 0xff) 0 (maskToSize 0x12 0) :=
  write_then_read_returns_value ⟨1, 0, 1⟩ LRU_POLICY
    (fun _ => ResponsePacket.read 0 0 0) (fun _ => ResponsePacket.read 0 0 0)
    (initState ⟨1, 0, 1⟩) 0x1A 0 0x12 (by constructor <;> decide) (by decide)
    (fun set hne => LRU_POLICY_in_range set hne) (by decide)

/-- C7: every write request sets the accessed line's dirty bit (hit or
miss); a completed writeback issues exactly one downstream write and
clears the line's dirty bit; and a line that is not both valid and dirty
is never written back — not by eviction (the miss trace holds no
downstream write), not by an addressed clean or flush of a clean line
(no downstream event at all), and every write issued by a global clean
or flush carries a line that was valid and dirty beforehand. -/
theorem dirty_bit_discipline (c : CacheConfig) (pol : ReplacementPolicy)
    (oracle : Oracle) :
    (∀ (st : CacheState) (A S V w : Nat),
      lookup st (parseAddress c (A &&& 0xff)).setIndex
        (parseAddress c (A &&& 0xff)).tag = some w →
      ((processTransaction c pol oracle st (RequestPacket.write A S V)).1.getLine
        (parseAddress c (A &&& 0xff)).setIndex w).dirty = true)
  ∧ (∀ (st : CacheState) (A S V : Nat),
      lookup st (parseAddress c (A &&& 0xff)).setIndex
        (parseAddress c (A &&& 0xff)).tag = none →
      pol (st.getSet (parseAddress c (A &&& 0xff)).setIndex) <
        (st.getSet (parseAddress c (A &&& 0xff)).setIndex).length →
      ((processTransaction c pol oracle st (RequestPacket.write A S V)).1.getLine
        (parseAddress c (A &&& 0xff)).setIndex
        (pol (st.getSet (parseAddress c (A &&& 0xff)).setIndex))).dirty = true)
  ∧ (∀ (st : CacheState) (s w : Nat),
      (st.getLine s w).valid = true → (st.getLine s w).dirty = true →
      (writeBackLine c st s w).2 =
        [BusEvent.busWrite (getLineBaseAddress c (st.getLine s w).tag s)
          c.offsetBits (st.getLine s w).data] ∧
      ((writeBackLine c st s w).1.getLine s w).dirty = false)
  ∧ (∀ (st : CacheState) (s w : Nat),
      ¬((st.getLine s w).valid = true ∧ (st.getLine s w).dirty = true) →
      writeBackLine c st s w = (st, []))
  ∧ (∀ (st : CacheState) (s t : Nat), lookup st s t = none →
      ¬((st.getLine s (pol (st.getSet s))).valid = true ∧
        (st.getLine s (pol (st.getSet s))).dirty = true) →
      (accessLine c pol oracle st s t).2.1 =
        [BusEvent.busRead (getLineBaseAddress c t s) c.offsetBits,
          BusEvent.install s (pol (st.getSet s)) t
            (extractReadData (oracle (RequestPacket.read
              (getLineBaseAddress c t s) c.offsetBits)))])
  ∧ (∀ (st : CacheState) (A w : Nat),
      lookup st (parseAddress c A).setIndex (parseAddress c A).tag = some w →
      (st.getLine (parseAddress c A).setIndex w).dirty = false →
      processTransaction c pol oracle st (RequestPacket.clean (some A) false) =
        (st, [], ResponsePacket.clean true))
  ∧ (∀ (st : CacheState) (A w : Nat),
      lookup st (parseAddress c A).setIndex (parseAddress c A).tag = some w →
      (st.getLine (parseAddress c A).setIndex w).dirty = false →
      (processTransaction c pol oracle st
        (RequestPacket.flush (some A) false)).2.1 = [])
  ∧ (∀ (st : CacheState) (ev : BusEvent),
      ev ∈ (processTransaction c pol oracle st
        (RequestPacket.clean none true)).2.1 →
      ∃ d ∈ getDirtyLines c st,
        ev = BusEvent.busWrite d.addr c.offsetBits d.line.data)
  ∧ (∀ (st : CacheState) (ev : BusEvent),
      ev ∈ (processTransaction c pol oracle st
        (RequestPacket.flush none true)).2.1 →
      ∃ d ∈ getDirtyLines c st,
        ev = BusEvent.busWrite d.addr c.offsetBits d.line.data) := by
  refine ⟨?_, ?_, ?_, ?_, ?_, ?_, ?_, ?_, ?_⟩
  · intro st A S V w hhit
    exact handleWrite_dirty_hit c pol oracle st A S V w hhit
  · intro st A S V hmiss hvlt
    exact handleWrite_dirty_miss c pol oracle st A S V hmiss hvlt
  · intro st s w hv hd
    rcases writeBackLine_cases c st s w with ⟨hng, _⟩ | ⟨_, heq⟩
    · exact absurd ⟨hv, hd⟩ hng
    · constructor
      · rw [heq]
      · exact writeBackLine_clears_dirty c st s w hv hd
  · intro st s w hng
    rcases writeBackLine_cases c st s w with ⟨_, heq⟩ | ⟨hg, _⟩
    · exact heq
    · exact absurd hg hng
  · intro st s t hmiss hng
    exact accessLine_miss_clean_trace c pol oracle st s t hmiss hng
  · intro st A w hhit hclean
    simp only [processTransaction, handleClean, hhit]
    rcases writeBackLine_cases c st (parseAddress c A).setIndex w
      with ⟨_, heq⟩ | ⟨⟨_, hd2⟩, _⟩
    · rw [heq]
    · rw [hclean] at hd2
      cases hd2
  · intro st A w hhit hclean
    simp only [processTransaction, handleFlush, hhit]
    rcases writeBackLine_cases c st (parseAddress c A).setIndex w
      with ⟨_, heq⟩ | ⟨⟨_, hd2⟩, _⟩
    · rw [heq]
    · rw [hclean] at hd2
      cases hd2
  · intro st ev hev
    refine cleanSweep_events_sub c (getDirtyLines c st) st st
      (linesWeaken_refl st) ?_ ev hev
    intro e he
    have := (mem_getDirtyLines c st e).1 he
    exact ⟨this.1, this.2.1⟩
  · intro st ev hev
    refine flushSweep_events_sub c (allCoords c) st st
      (linesWeaken_refl st) ?_ ev hev
    intro sw hsw
    exact (mem_allCoords c sw).1 hsw

theorem dirty_bit_discipline_witness :
    (writeBackLine ⟨1, 0, 1⟩ ⟨[[⟨true, true, 13, 0x12, 1⟩]], 1⟩ 0 0).2 =
      [BusEvent.busWrite
        (getLineBaseAddress ⟨1, 0, 1⟩
          ((CacheState.getLine ⟨[[⟨true, true, 13, 0x12, 1⟩]], 1⟩ 0 0)).tag 0)
        1 ((CacheState.getLine ⟨[[⟨true, true, 13, 0x12, 1⟩]], 1⟩ 0 0)).data]
  ∧ ((writeBackLine ⟨1, 0, 1⟩ ⟨[[⟨true, true, 13, 0x12, 1⟩]], 1⟩ 0 0).1.getLine
      0 0).dirty = false :=
  (dirty_bit_discipline ⟨1, 0, 1⟩ LRU_POLICY
    (fun _ => ResponsePacket.inval true)).2.2.1
    ⟨[[⟨true, true, 13, 0x12, 1⟩]], 1⟩ 0 0 (by decide) (by decide)

end CacheModel
